import Mathlib

/-!
Verification of the ICAIL-2026 judgment-cleaning and analysis pipeline.

The Python sources (`cleaner_ICAIL_2026_Public.py` and
`analyze_cases_ICAIL_2026_Public.py`) are shallowly embedded here: text is
modelled as `List Char` (mirroring Python `str`), regular-expression driven
scans are modelled as explicit recursive scanners with the same
left-to-right, non-overlapping semantics, and `\d` / `[A-Z]` character
classes are modelled over ASCII (the documents processed are ASCII legal
text).  Each embedded definition keeps the name of the Python function it
translates.
-/

namespace ICAIL

/-! ## Character class helpers (Python semantics) -/

/-- Python whitespace, as recognised by `str.strip()` and the regex class
`\s` on unicode strings. -/
def pySpaceB (c : Char) : Bool :=
  c = ' ' || c = '\t' || c = '\n' || c = '\r' || c = '\x0b' || c = '\x0c' ||
  c = '\x1c' || c = '\x1d' || c = '\x1e' || c = '\x1f' || c = '\x85' ||
  c = '\xa0' || c = ' ' ||
  (decide (0x2000 ≤ c.toNat) && decide (c.toNat ≤ 0x200a)) ||
  c = ' ' || c = ' ' || c = ' ' || c = ' ' || c = '　'

/-- ASCII decimal digit (`\d` in the source patterns). -/
def isDigitB (c : Char) : Bool := decide ('0' ≤ c) && decide (c ≤ '9')

/-- ASCII uppercase letter (`[A-Z]` in the source patterns). -/
def isUpperB (c : Char) : Bool := decide ('A' ≤ c) && decide (c ≤ 'Z')

/-- ASCII lowercase letter (`[a-z]` in the source patterns). -/
def isLowerB (c : Char) : Bool := decide ('a' ≤ c) && decide (c ≤ 'z')

/-- Regex word character `\w` (ASCII part), used for `\b` boundaries. -/
def isWordB (c : Char) : Bool :=
  isDigitB c || isUpperB c || isLowerB c || c = '_'

/-- Drop trailing characters satisfying `p` (the right half of
Python `str.strip()`). -/
def dropTrail (p : Char → Bool) : List Char → List Char
  | [] => []
  | c :: cs =>
    match dropTrail p cs with
    | [] => if p c then [] else [c]
    | d :: ds => c :: d :: ds

/-- Python `str.strip()`: remove leading and trailing whitespace. -/
def pyStrip (l : List Char) : List Char :=
  dropTrail pySpaceB (l.dropWhile pySpaceB)

/-- Split on `'\n'`, Python `str.split('\n')` (never returns `[]`). -/
def splitNL : List Char → List (List Char)
  | [] => [[]]
  | c :: r =>
    if c = '\n' then [] :: splitNL r
    else
      match splitNL r with
      | [] => [[c]]
      | l :: ls => (c :: l) :: ls

/-- Join with `'\n'`, Python `'\n'.join(...)`. -/
def joinNL : List (List Char) → List Char
  | [] => []
  | [l] => l
  | l :: ls => l ++ '\n' :: joinNL ls

/-- Numeric value of an ASCII digit string, Python `int(...)` on the digits
captured by `(\d+)`. -/
def natOfDigits (l : List Char) : Nat :=
  l.foldl (fun acc c => acc * 10 + (c.toNat - '0'.toNat)) 0

/-! ## `count_syllables` (analyze_cases, lines 605-619) -/

/-- The vowels of the analyzer (`VOWELS = "aeiouy"`). -/
def isVowelB (c : Char) : Bool :=
  c = 'a' || c = 'e' || c = 'i' || c = 'o' || c = 'u' || c = 'y'

/-- The reduction of a word performed by
`re.sub(r"[^a-z]", "", word.lower())`. -/
def cleanWord (word : String) : List Char :=
  (word.data.map Char.toLower).filter isLowerB

/-- The vowel-group loop of `count_syllables`, carrying `prev_vowel`. -/
def syllGo (n : Nat) (prev : Bool) : List Char → Nat
  | [] => n
  | c :: cs => syllGo (if isVowelB c && !prev then n + 1 else n) (isVowelB c) cs

/-- Translation of `count_syllables` from the analyzer. -/
def count_syllables (word : String) : Nat :=
  let w := cleanWord word
  if w = [] then 0
  else
    let syll := syllGo 0 false w
    let syll := if w.getLast? = some 'e' && decide (syll > 1) then syll - 1 else syll
    max 1 syll

/-- Number of maximal vowel runs of a character list: positions where a
vowel is not preceded by a vowel.  This is the claim's own wording of
"vowel-group counting (counting maximal vowel runs)". -/
def vowelRunCount (w : List Char) : Nat :=
  (List.zipWith (fun prev cur => cur && !prev)
    (false :: w.map isVowelB) (w.map isVowelB)).count true

/-- Syllable counting exactly as claim C8 words it: vowel-group count with
the silent-e decrement, and nothing else (no floor at one). -/
def count_syllables_claimC8 (word : String) : Nat :=
  let w := cleanWord word
  let g := vowelRunCount w
  if w.getLast? = some 'e' && decide (g > 1) then g - 1 else g

/-! ## `remove_page_numbers` (cleaner, lines 260-271) -/

/-- Stripped line is an entire 1-to-3-digit number
(`re.match(r'^\d{1,3}$', stripped)`). -/
def isBareNumB (s : List Char) : Bool :=
  !s.isEmpty && decide (s.length ≤ 3) && s.all isDigitB

/-- Consume a literal case-insensitively (regex `IGNORECASE` literal). -/
def dropLitCI : List Char → List Char → Option (List Char)
  | [], s => some s
  | _ :: _, [] => none
  | p :: ps, c :: cs =>
    if p.toLower = c.toLower then dropLitCI ps cs else none

/-- Consume `\s+` (at least one whitespace char). -/
def dropWs1 : List Char → Option (List Char)
  | [] => none
  | c :: cs => if pySpaceB c then some (cs.dropWhile pySpaceB) else none

/-- Consume `\d+` (at least one digit). -/
def dropDigits1 : List Char → Option (List Char)
  | [] => none
  | c :: cs => if isDigitB c then some (cs.dropWhile isDigitB) else none

/-- Stripped line starts with `Page\s+\d+\s+of\s+\d+`, case-insensitively
(`re.match` anchors at the start only). -/
def isPageMarkerB (s : List Char) : Bool :=
  match dropLitCI "Page".data s with
  | none => false
  | some r1 =>
    match dropWs1 r1 with
    | none => false
    | some r2 =>
      match dropDigits1 r2 with
      | none => false
      | some r3 =>
        match dropWs1 r3 with
        | none => false
        | some r4 =>
          match dropLitCI "of".data r4 with
          | none => false
          | some r5 =>
            match dropWs1 r5 with
            | none => false
            | some r6 => (dropDigits1 r6).isSome

/-- The per-line loop of `remove_page_numbers`. -/
def removePageLines : List (List Char) → List (List Char)
  | [] => []
  | l :: ls =>
    let stripped := pyStrip l
    if isBareNumB stripped then removePageLines ls
    else if isPageMarkerB stripped then removePageLines ls
    else l :: removePageLines ls

/-- Translation of `remove_page_numbers` from the cleaner. -/
def remove_page_numbers (content : String) : String :=
  ⟨joinNL (removePageLines (splitNL content.data))⟩

/-! ## `fix_duplicate_paragraph_numbers` (cleaner, lines 2756-2779) -/

/-- Decimal digit character for a digit value (values ≥ 9 clamp to '9';
callers only pass values `< 10`). -/
def digitChar10 (d : Nat) : Char :=
  match d with
  | 0 => '0' | 1 => '1' | 2 => '2' | 3 => '3' | 4 => '4'
  | 5 => '5' | 6 => '6' | 7 => '7' | 8 => '8' | _ => '9'

/-- Fuelled most-significant-first decimal rendering; `fuel ≥ n` is always
enough fuel. -/
def natToCharsAux : Nat → Nat → List Char
  | 0, _ => []
  | fuel + 1, n =>
    if n = 0 then []
    else natToCharsAux fuel (n / 10) ++ [digitChar10 (n % 10)]

/-- Decimal rendering of a natural number, as interpolated by the
f-strings `f"{para_num}. {rest}"` of the source. -/
def natToChars (n : Nat) : List Char :=
  if n = 0 then ['0'] else natToCharsAux n n

/-- Parse of `re.match(r'^(\d{1,3})\.\s+(.+)$', stripped)` together with the
Python `int` conversion: returns the numeric value of the (at most three
digit) ordinal and the text group.  The regex quantifier `{1,3}` together
with the following literal `\.` forces the whole leading digit run (of
length at most 3) to be taken, and `\s+(.+)$` on a stripped line (which
cannot end in whitespace) puts the whole remainder after the whitespace run
into group 2. -/
def parseNumLine (s : List Char) : Option (Nat × List Char) :=
  let ds := s.takeWhile isDigitB
  if ds.isEmpty || decide (ds.length > 3) then none
  else
    match s.dropWhile isDigitB with
    | '.' :: r =>
      match dropWs1 r with
      | none => none
      | some body => if body.isEmpty then none else some (natOfDigits ds, body)
    | _ => none

/-- The per-line body of the `fix_duplicate_paragraph_numbers` loop:
given `last_para_num` and a line, produce the updated `last_para_num`
and the (possibly rewritten) line. -/
def dupStep (last : Nat) (line : List Char) : Nat × List Char :=
  match parseNumLine (pyStrip line) with
  | none => (last, line)
  | some (n, rest) =>
    if n ≤ last then (last + 1, natToChars (last + 1) ++ '.' :: ' ' :: rest)
    else (n, line)

/-- The whole loop of `fix_duplicate_paragraph_numbers`. -/
def dupLoop : Nat → List (List Char) → List (List Char)
  | _, [] => []
  | last, l :: ls =>
    let st := dupStep last l
    st.2 :: dupLoop st.1 ls

/-- Translation of `fix_duplicate_paragraph_numbers` from the cleaner. -/
def fix_duplicate_paragraph_numbers (content : String) : String :=
  ⟨joinNL (dupLoop 0 (splitNL content.data))⟩

/-- The paragraph ordinals of a list of lines, in order: the numeric value
of each line recognised by the `^(\d{1,3})\.\s+(.+)$` pattern. -/
def lineOrdinals (ls : List (List Char)) : List Nat :=
  ls.filterMap (fun l => (parseNumLine (pyStrip l)).map (·.1))

/-- First character of `l` does not satisfy `p` (vacuously true if empty). -/
def headNot (p : Char → Bool) (l : List Char) : Bool :=
  match l with
  | [] => true
  | c :: _ => !p c

/-- Last character of `l` does not satisfy `p` (vacuously true if empty). -/
def lastNot (p : Char → Bool) (l : List Char) : Bool :=
  match l.getLast? with
  | none => true
  | some c => !p c

/-! ## Theorems for claims C8 and C10 -/

theorem syllGo_eq (w : List Char) : ∀ (n : Nat) (prev : Bool),
    syllGo n prev w = n + (List.zipWith (fun p c => c && !p)
      (prev :: w.map isVowelB) (w.map isVowelB)).count true := by
  induction w with
  | nil => intro n prev; simp [syllGo]
  | cons c cs ih =>
    intro n prev
    simp only [syllGo, List.map_cons, List.zipWith_cons_cons, List.count_cons]
    rw [ih]
    cases h : isVowelB c && !prev <;> (simp [h]; try omega)

/-- C8 (amended): `count_syllables` returns 0 when the word has no ASCII
letters; otherwise it is the vowel-run count with the silent-e decrement
(exactly the mechanism of the claim), additionally floored at 1.  In
particular it returns 2 for "contract", 1 for "the" and 2 for "judgment". -/
theorem count_syllables_spec :
    (∀ w : String, count_syllables w =
      if cleanWord w = [] then 0 else max 1 (count_syllables_claimC8 w)) ∧
    count_syllables "contract" = 2 ∧ count_syllables "the" = 1 ∧
    count_syllables "judgment" = 2 := by
  refine ⟨?_, by decide, by decide, by decide⟩
  intro w
  have hg : syllGo 0 false (cleanWord w) = vowelRunCount (cleanWord w) := by
    rw [syllGo_eq]; simp [vowelRunCount]
  simp only [count_syllables, count_syllables_claimC8, hg]

/-- C8: the claim's mechanism (vowel groups with silent-e decrement and
nothing else) disagrees with the code on a vowel-free word: the code floors
the count at 1. -/
theorem count_syllables_claimC8_counterexample :
    count_syllables "b" = 1 ∧ count_syllables_claimC8 "b" = 0 := by decide

/-! ## `count_academic_references` (analyze_cases, lines 430-501)

The two regex families produce candidate spans `(m.start(), m.end())`; the
algorithmic core translated here is the sort by `(start, -(length))` and
the greedy overlap sweep of lines 493-501.  Candidates are abstracted as an
arbitrary list of spans, covering the candidate list of every input text. -/

/-- The overlap test of the sweep: candidate `c` overlaps accepted `u`
when `s < ue and e > us`. -/
def overlapB (c u : Nat × Nat) : Bool :=
  decide (c.1 < u.2) && decide (u.1 < c.2)

/-- The greedy sweep: accept a candidate only if it overlaps no previously
accepted interval (`used.append` in the source). -/
def sweep (used : List (Nat × Nat)) : List (Nat × Nat) → List (Nat × Nat)
  | [] => used
  | c :: rest =>
    if used.any (fun u => overlapB c u) then sweep used rest
    else sweep (used ++ [c]) rest

/-- The sort order `key=lambda x: (x[0], -(x[1] - x[0]))`: ascending start
offset, longer spans first on ties. -/
def candLE (a b : Nat × Nat) : Prop :=
  a.1 < b.1 ∨ (a.1 = b.1 ∧ b.2 - b.1 ≤ a.2 - a.1)

instance : DecidableRel candLE := fun a b => by unfold candLE; infer_instance

instance : IsTotal (Nat × Nat) candLE where
  total a b := by
    unfold candLE
    rcases Nat.lt_trichotomy a.1 b.1 with h | h | h
    · exact Or.inl (Or.inl h)
    · by_cases hlen : b.2 - b.1 ≤ a.2 - a.1
      · exact Or.inl (Or.inr ⟨h, hlen⟩)
      · exact Or.inr (Or.inr ⟨h.symm, by omega⟩)
    · exact Or.inr (Or.inl h)

instance : IsTrans (Nat × Nat) candLE where
  trans a b c hab hbc := by
    unfold candLE at *
    rcases hab with h1 | ⟨h1, h2⟩ <;> rcases hbc with h3 | ⟨h3, h4⟩
    · exact Or.inl (by omega)
    · exact Or.inl (by omega)
    · exact Or.inl (by omega)
    · exact Or.inr ⟨by omega, by omega⟩

/-- Translation of `count_academic_references`: sort candidates, sweep,
count the accepted set. -/
def count_academic_references (cands : List (Nat × Nat)) : Nat :=
  (sweep [] (cands.insertionSort candLE)).length

/-! ## `classify_reporter` and `count_citations_by_jurisdiction`
(analyze_cases, lines 312-423) -/

inductive Jurisdiction where
  | UK | AU | USA | CAN | IND | NZ | SG | EU | OTHER
deriving DecidableEq

/-- `UK_REPORTERS` of the analyzer (a Python set; iteration order is
irrelevant because every member of a set maps to the same jurisdiction). -/
def UK_REPORTERS : List String :=
  ["UKHL", "UKSC", "UKPC", "AC", "WLR", "QB", "KB", "Ch", "Fam",
   "EWCA", "EWHC", "All ER", "Lloyd", "ICR", "IRLR", "Cr App R",
   "BCLC", "BCC", "FSR", "RPC", "STC", "TC", "WTLR"]

/-- `AU_REPORTERS` of the analyzer. -/
def AU_REPORTERS : List String :=
  ["HCA", "FCAFC", "FCA", "NSWCA", "NSWSC", "VSC", "VSCA", "QCA", "QSC",
   "WASCA", "WASC", "SASC", "SASFC", "TASSC", "TASFC", "ACTSC", "ACTCA",
   "CLR", "ALR", "ALJR", "FLR", "NSWLR", "VR", "SASR", "WAR", "Qd R",
   "Tas R", "ACTR", "NTLR"]

/-- `USA_REPORTERS` of the analyzer. -/
def USA_REPORTERS : List String :=
  ["US", "S Ct", "L Ed", "F", "F 2d", "F 3d", "F Supp", "F Supp 2d",
   "So", "So 2d", "NE", "NE 2d", "NW", "NW 2d", "SE", "SE 2d",
   "SW", "SW 2d", "P", "P 2d", "P 3d", "A", "A 2d", "A 3d",
   "Cal", "NY", "Ill", "Tex", "Mass", "Pa"]

/-- `CAN_REPORTERS` of the analyzer. -/
def CAN_REPORTERS : List String :=
  ["SCC", "SCR", "FC", "FCA", "ONCA", "ONSC", "BCCA", "BCSC",
   "ABCA", "ABQB", "DLR", "OR", "AR", "BCLR", "WWR", "RFL", "CCC"]

/-- `IND_REPORTERS` of the analyzer. -/
def IND_REPORTERS : List String :=
  ["SCC", "SCR", "AIR", "Bom", "Cal", "Mad", "All", "Del", "Kar", "Ker"]

/-- `NZ_REPORTERS` of the analyzer. -/
def NZ_REPORTERS : List String :=
  ["NZSC", "NZCA", "NZHC", "NZLR", "NZAR"]

/-- `SG_REPORTERS` of the analyzer. -/
def SG_REPORTERS : List String :=
  ["SGCA", "SGHC", "SGHCF", "SGDC", "SGMC", "SLR", "MLJ", "SGHCR"]

/-- `EU_REPORTERS` of the analyzer. -/
def EU_REPORTERS : List String :=
  ["ECR", "CMLR", "EUECJ", "ECHR"]

/-- Boolean list-former test (`needle` begins `haystack`). -/
def listPfxB : List Char → List Char → Bool
  | [], _ => true
  | _ :: _, [] => false
  | a :: as, b :: bs => a = b && listPfxB as bs

/-- Python `in` on strings: `needle` occurs contiguously in `haystack`. -/
def listSub (needle : List Char) : List Char → Bool
  | [] => needle.isEmpty
  | c :: cs => listPfxB needle (c :: cs) || listSub needle cs

/-- Python `str.upper()` (ASCII part, reporter codes are ASCII). -/
def pyUpper (s : List Char) : List Char := s.map Char.toUpper

/-- `rep.upper() in reporter_clean or reporter_clean in rep.upper()`. -/
def inEither (rep : String) (rc : List Char) : Bool :=
  listSub (pyUpper rep.data) rc || listSub rc (pyUpper rep.data)

/-- One `for rep in SET:` loop of `classify_reporter`: does any code of
the set match? -/
def matchesSet (reps : List String) (rc : List Char) : Bool :=
  reps.any (fun rep => inEither rep rc)

/-- Translation of `classify_reporter` from the analyzer (lines 359-389):
`reporter.strip().upper()`, then the eight jurisdiction loops in source
order (SG first), else `'OTHER'`. -/
def classify_reporter (reporter : String) : Jurisdiction :=
  let rc := pyUpper (pyStrip reporter.data)
  if matchesSet SG_REPORTERS rc then .SG
  else if matchesSet UK_REPORTERS rc then .UK
  else if matchesSet AU_REPORTERS rc then .AU
  else if matchesSet USA_REPORTERS rc then .USA
  else if matchesSet CAN_REPORTERS rc then .CAN
  else if matchesSet IND_REPORTERS rc then .IND
  else if matchesSet NZ_REPORTERS rc then .NZ
  else if matchesSet EU_REPORTERS rc then .EU
  else .OTHER

/-- The priority table of the claim: home jurisdiction (SG) first, then
the remaining jurisdictions in the source's order. -/
def priorityC6 : List (List String × Jurisdiction) :=
  [(SG_REPORTERS, .SG), (UK_REPORTERS, .UK), (AU_REPORTERS, .AU),
   (USA_REPORTERS, .USA), (CAN_REPORTERS, .CAN), (IND_REPORTERS, .IND),
   (NZ_REPORTERS, .NZ), (EU_REPORTERS, .EU)]

/-- Claim C6 verbatim: the reporter token is upper-cased AND
whitespace/period-stripped, then the first matching set in priority order
(SG first, substring containment in both directions) decides; no match
gives OTHER. -/
def classify_reporter_claimC6 (reporter : String) : Jurisdiction :=
  let rc := (pyUpper (pyStrip reporter.data)).filter
    (fun c => !(c = '.' || c = ' '))
  ((priorityC6.find? (fun p => matchesSet p.1 rc)).map (·.2)).getD .OTHER

/-- Claim C6 as amended: identical to the claim except that the reporter
token is only surrounding-whitespace-stripped and upper-cased (periods and
internal whitespace are kept). -/
def classify_reporter_specC6 (reporter : String) : Jurisdiction :=
  let rc := pyUpper (pyStrip reporter.data)
  ((priorityC6.find? (fun p => matchesSet p.1 rc)).map (·.2)).getD .OTHER

/-- A single regex match of `CASE_CITATION_PATTERN` (line 312): the
bracket alternative `[year] REPORTER number` (groups 0-2) or the round
alternative `(year) volume REPORTER number` (groups 3-6). -/
inductive CiteMatch where
  | bracket (year reporter number : String)
  | round (year volume reporter number : String)

/-- The `cite_key` built for deduplication (lines 406-411). -/
def citeKey : CiteMatch → String
  | .bracket y rep num => "[" ++ y ++ "] " ++ (⟨pyStrip rep.data⟩ : String) ++ " " ++ num
  | .round y vol rep num =>
      "(" ++ y ++ ") " ++ vol ++ " " ++ (⟨pyStrip rep.data⟩ : String) ++ " " ++ num

/-- The reporter group of a match. -/
def citeReporter : CiteMatch → String
  | .bracket _ rep _ => rep
  | .round _ _ rep _ => rep

/-- One tally dictionary (`counts` or `unique_counts`): the nine
per-jurisdiction cells plus the `'total'` cell. -/
structure JCounts where
  perJ : Jurisdiction → Nat
  total : Nat

/-- Increment one jurisdiction cell. -/
def bump (f : Jurisdiction → Nat) (j : Jurisdiction) : Jurisdiction → Nat :=
  fun j2 => if j2 = j then f j2 + 1 else f j2

/-- Python `str.isdigit()` (ASCII digits; regex reporters are ASCII). -/
def pyIsDigitStr (s : List Char) : Bool := !s.isEmpty && s.all isDigitB

/-- The loop body of `count_citations_by_jurisdiction` (lines 404-421).
`classify_reporter` never returns a falsy value (OTHER at worst), so the
`if jurisdiction:` test always passes. -/
def citeStep (st : JCounts × JCounts × List String) (m : CiteMatch) :
    JCounts × JCounts × List String :=
  let reporter : List Char := pyStrip (citeReporter m).data
  if decide (2 ≤ reporter.length) && !pyIsDigitStr reporter then
    let j := classify_reporter ⟨reporter⟩
    let counts : JCounts := ⟨bump st.1.perJ j, st.1.total + 1⟩
    if citeKey m ∈ st.2.2 then (counts, st.2.1, st.2.2)
    else (counts, ⟨bump st.2.1.perJ j, st.2.1.total + 1⟩, citeKey m :: st.2.2)
  else st

/-- Translation of `count_citations_by_jurisdiction`: fold the loop body
over the matches, returning `(counts, unique_counts)`. -/
def count_citations_by_jurisdiction (ms : List CiteMatch) : JCounts × JCounts :=
  let st := ms.foldl citeStep (⟨fun _ => 0, 0⟩, ⟨fun _ => 0, 0⟩, [])
  (st.1, st.2.1)

/-- Sum of the nine per-jurisdiction cells. -/
def sumF (f : Jurisdiction → Nat) : Nat :=
  f .UK + f .AU + f .USA + f .CAN + f .IND + f .NZ + f .SG + f .EU + f .OTHER

/-! ## `fix_paragraph_numbering` (cleaner, lines 2355-2390) -/

/-- The section-marker substring tested by `'CORE JUDGMENT' in line`. -/
def coreMarker : List Char := "CORE JUDGMENT".data

/-- Parse of `re.match(r'^(\d+)\.\s+([A-Z])', stripped)` together with the
derived values used by the loop: `para_num = int(match.group(1))` and
`rest = stripped[len(match.group(1)) + 1:].strip()` (the text after the
digits and the period, stripped).  The backtracking of `\s+[A-Z]` reduces
to: the first non-whitespace character after the period exists, is an
ASCII capital, and at least one whitespace character precedes it. -/
def parseC4 (stripped : List Char) : Option (Nat × List Char) :=
  let ds := stripped.takeWhile isDigitB
  if ds.isEmpty then none
  else
    match stripped.dropWhile isDigitB with
    | '.' :: r =>
      match r with
      | c :: cs =>
        if pySpaceB c then
          match cs.dropWhile pySpaceB with
          | u :: _ => if isUpperB u then some (natOfDigits ds, pyStrip r) else none
          | [] => none
        else none
      | [] => none
    | _ => none

/-- The per-line body of the `fix_paragraph_numbering` loop; the state is
`(in_core_judgment, last_para_num)`.  (Python evaluates `para_num - 1`
over the integers, where it can be `-1`; since `last % 10 ≥ -1` and
`last % 10 ≥ 0` are both always true, `Nat` subtraction is faithful.) -/
def fixParaStep (st : Bool × Nat) (line : List Char) : (Bool × Nat) × List Char :=
  let inCore := st.1 || listSub coreMarker line
  if !inCore then ((inCore, st.2), line)
  else
    match parseC4 (pyStrip line) with
    | none => ((inCore, st.2), line)
    | some (n, rest) =>
      let last := st.2
      if n < 10 ∧ 10 ≤ last then
        if n - 1 ≤ last % 10 then
          let tens := (last / 10) * 10
          let newNum := if tens + n ≤ last then tens + 10 + n else tens + n
          ((inCore, newNum), natToChars newNum ++ '.' :: ' ' :: rest)
        else ((inCore, n), line)
      else if n > last ∨ n = 1 then ((inCore, n), line)
      else ((inCore, last), line)

/-- The whole loop of `fix_paragraph_numbering`. -/
def fixParaLoop : (Bool × Nat) → List (List Char) → List (List Char)
  | _, [] => []
  | st, l :: ls =>
    let r := fixParaStep st l
    r.2 :: fixParaLoop r.1 ls

/-- Translation of `fix_paragraph_numbering` from the cleaner. -/
def fix_paragraph_numbering (content : String) : String :=
  ⟨joinNL (fixParaLoop (false, 0) (splitNL content.data))⟩

/-- The paragraph ordinals of the core-judgment region, read with the same
marker logic and line pattern as `fix_paragraph_numbering` itself. -/
def coreOrdinalsLoop : Bool → List (List Char) → List Nat
  | _, [] => []
  | inC, l :: ls =>
    let inC2 := inC || listSub coreMarker l
    if inC2 then
      match parseC4 (pyStrip l) with
      | some (n, _) => n :: coreOrdinalsLoop inC2 ls
      | none => coreOrdinalsLoop inC2 ls
    else coreOrdinalsLoop inC2 ls

/-- Ordinal sequence of a document's core region. -/
def coreOrdinals (s : String) : List Nat :=
  coreOrdinalsLoop false (splitNL s.data)

/-! ## `segment_head_core` (cleaner, lines 2253-2266) and
`repair_space_separated_digits` (cleaner, lines 94-106) -/

/-- `re.sub(r"\s+", " ", text)`: collapse every whitespace run to one
space.  The Boolean state records whether the scanner is inside a run. -/
def collapseWS (inRun : Bool) : List Char → List Char
  | [] => []
  | c :: cs =>
    if pySpaceB c then
      if inRun then collapseWS true cs else ' ' :: collapseWS true cs
    else c :: collapseWS false cs

/-- One `re.sub(r'([0-9]) ([0-9])(?![0-9])', r'\1\2', t)` pass with the
left-to-right, non-overlapping scan of `re.sub` (scanning resumes after a
replacement).  Fuelled structural recursion (`fuel ≥ length` always
suffices, and the wrapper passes the length). -/
def rsdPass1F : Nat → List Char → List Char
  | 0, l => l
  | _ + 1, [] => []
  | fuel + 1, a :: ' ' :: b :: rest =>
    if isDigitB a && isDigitB b &&
        !(match rest with | d :: _ => isDigitB d | [] => false) then
      a :: b :: rsdPass1F fuel rest
    else a :: rsdPass1F fuel (' ' :: b :: rest)
  | fuel + 1, a :: rest => a :: rsdPass1F fuel rest

/-- The digit-space-digit pass at adequate fuel. -/
def rsdPass1 (l : List Char) : List Char := rsdPass1F l.length l

/-- The bounded fixed-point loop `for _ in range(10): ... if new == t:
break`. -/
def pyLoop10 (f : List Char → List Char) : Nat → List Char → List Char
  | 0, t => t
  | k + 1, t =>
    let new := f t
    if new = t then t else pyLoop10 f k new

/-- `re.sub(r'(?<=[0-9]) (?=\.)', '', t)`: delete a space between a digit
and a period (the lookaround groups consume nothing, so scanning resumes
at the period). -/
def rsdPass2F : Nat → List Char → List Char
  | 0, l => l
  | _ + 1, [] => []
  | fuel + 1, a :: ' ' :: '.' :: r =>
    if isDigitB a then a :: rsdPass2F fuel ('.' :: r)
    else a :: rsdPass2F fuel (' ' :: '.' :: r)
  | fuel + 1, a :: r => a :: rsdPass2F fuel r

/-- The digit-space-period pass at adequate fuel. -/
def rsdPass2 (l : List Char) : List Char := rsdPass2F l.length l

/-- Translation of `repair_space_separated_digits`. -/
def repair_space_separated_digits (t : List Char) : List Char :=
  rsdPass2 (pyLoop10 rsdPass1 10 t)

/-- Tail test for `re.search(r"\b1\.\s+\S", flat)` after the initial `1`:
a period, at least one whitespace character, then some non-whitespace
character. -/
def dotOneTail : List Char → Bool
  | '.' :: c :: cs => pySpaceB c && !(cs.dropWhile pySpaceB).isEmpty
  | _ => false

/-- Left-to-right search for `\b1\.\s+\S`: `prevW` says whether the
previous character was a word character (for the `\b` boundary); returns
the match start offset. -/
def searchDotOne (prevW : Bool) (i : Nat) : List Char → Option Nat
  | [] => none
  | c :: rest =>
    if c = '1' && !prevW && dotOneTail rest then some i
    else searchDotOne (isWordB c) (i + 1) rest

/-- Translation of `segment_head_core`: flatten whitespace, repair
space-separated digits, find the first paragraph marker `1. `; if none is
found the whole original text becomes the core and the headnotes are
empty. -/
def segment_head_core (full_text : String) : String × String :=
  let flat := repair_space_separated_digits (collapseWS false full_text.data)
  match searchDotOne false 0 flat with
  | none => ("", full_text)
  | some i => ((⟨pyStrip (flat.take i)⟩ : String), (⟨pyStrip (flat.drop i)⟩ : String))

/-! ## `extract_sections` (analyze_cases, lines 523-547)

The three section regexes are modelled by a small matcher: a pattern is a
sequence of elements, each element maps a suffix to the list of consumable
lengths in the engine's backtracking preference order (greedy elements
longest first); `(.*?)` with a lookahead takes the shortest prefix whose
following suffix satisfies the lookahead, as the lazy quantifier does. -/

/-- Element `-{10,}` (greedy). -/
def eDashes (l : List Char) : List Nat :=
  (List.range ((l.takeWhile (fun c => c = '-')).length + 1)).reverse.filter
    (fun j => 10 ≤ j)

/-- Element `\s*` (greedy). -/
def eWs (l : List Char) : List Nat :=
  (List.range ((l.takeWhile pySpaceB).length + 1)).reverse

/-- Element `\n`. -/
def eNl : List Char → List Nat
  | '\n' :: _ => [1]
  | _ => []

/-- Element: a case-insensitive literal (`re.IGNORECASE`). -/
def eLitCI (lit : List Char) (l : List Char) : List Nat :=
  match dropLitCI lit l with
  | some _ => [lit.length]
  | none => []

/-- All end offsets of a sequence of elements on a suffix, in backtracking
preference order. -/
def eSeq : List (List Char → List Nat) → List Char → List Nat
  | [], _ => [0]
  | e :: es, l => (e l).flatMap (fun k => (eSeq es (l.drop k)).map (k + ·))

/-- Does a sequence of elements match here? -/
def seqMatches (es : List (List Char → List Nat)) (l : List Char) : Bool :=
  !(eSeq es l).isEmpty

/-- Offset of the first suffix satisfying `p` (the lazy `(.*?)` scan). -/
def firstSuffix (p : List Char → Bool) : List Char → Option Nat
  | [] => if p [] then some 0 else none
  | c :: r => if p (c :: r) then some 0 else (firstSuffix p r).map (· + 1)

/-- Group extraction for a header followed by `(.*?)(?=look)`: for the
first header end in preference order, the shortest group for which the
lookahead matches. -/
def firstGroup (look : List Char → Bool) (ends : List Nat) (l : List Char) :
    Option (List Char) :=
  match ends with
  | [] => none
  | p :: ps =>
    match firstSuffix look (l.drop p) with
    | some k => some ((l.drop p).take k)
    | none => firstGroup look ps l

/-- Leftmost-match search: try every suffix in order. -/
def searchGroup (matchAt : List Char → Option (List Char)) :
    List Char → Option (List Char)
  | [] => matchAt []
  | c :: r =>
    match matchAt (c :: r) with
    | some g => some g
    | none => searchGroup matchAt r

/-- Header `-{10,}\s*\n\s*HEADNOTES\s*\n\s*-{10,}\s*\n`. -/
def hnHeader : List (List Char → List Nat) :=
  [eDashes, eWs, eNl, eWs, eLitCI "HEADNOTES".data, eWs, eNl, eWs,
   eDashes, eWs, eNl]

/-- Lookahead `\n\s*-{10,}\s*\n\s*CORE JUDGMENT`. -/
def hnLook : List (List Char → List Nat) :=
  [eNl, eWs, eDashes, eWs, eNl, eWs, eLitCI "CORE JUDGMENT".data]

/-- Header of the CORE JUDGMENT pattern. -/
def coreHeader : List (List Char → List Nat) :=
  [eDashes, eWs, eNl, eWs, eLitCI "CORE JUDGMENT".data, eWs, eNl, eWs,
   eDashes, eWs, eNl]

/-- Lookahead `\n\s*-{10,}\s*\n\s*FOOTNOTES|\Z`. -/
def coreLook : List (List Char → List Nat) :=
  [eNl, eWs, eDashes, eWs, eNl, eWs, eLitCI "FOOTNOTES".data]

/-- Header of the FOOTNOTES pattern. -/
def fnHeader : List (List Char → List Nat) :=
  [eDashes, eWs, eNl, eWs, eLitCI "FOOTNOTES".data, eWs, eNl, eWs,
   eDashes, eWs, eNl]

/-- The HEADNOTES pattern at one position. -/
def hnAt (l : List Char) : Option (List Char) :=
  firstGroup (fun s => seqMatches hnLook s) (eSeq hnHeader l) l

/-- The CORE JUDGMENT pattern at one position (`\Z` alternative: the
lookahead also matches at end of input). -/
def coreAt (l : List Char) : Option (List Char) :=
  firstGroup (fun s => seqMatches coreLook s || s.isEmpty) (eSeq coreHeader l) l

/-- The FOOTNOTES pattern at one position: group `(.*)`, everything after
the header. -/
def fnAt (l : List Char) : Option (List Char) :=
  match eSeq fnHeader l with
  | p :: _ => some (l.drop p)
  | [] => none

/-- Translation of `extract_sections`: each section defaults to the empty
string when its pattern does not match. -/
def extract_sections (content : String) : String × String × String :=
  let hn : String := match searchGroup hnAt content.data with
    | some g => ⟨pyStrip g⟩
    | none => ""
  let core : String := match searchGroup coreAt content.data with
    | some g => ⟨pyStrip g⟩
    | none => ""
  let fn : String := match searchGroup fnAt content.data with
    | some g => ⟨pyStrip g⟩
    | none => ""
  (hn, core, fn)

/-! ## `normalize_text` (cleaner, lines 46-55) -/

/-- `text.replace("\r\n", "\n")`: left-to-right non-overlapping scan,
resuming after each replacement. -/
def replaceCRLF : List Char → List Char
  | [] => []
  | [c] => [c]
  | c :: d :: cs =>
    if c = '\r' && d = '\n' then '\n' :: replaceCRLF cs
    else c :: replaceCRLF (d :: cs)

/-- `'\r' → '\n'`, the character map of `text.replace("\r", "\n")` (a
one-character pattern cannot overlap). -/
def mapCRf (c : Char) : Char := if c = '\r' then '\n' else c

/-- `'\xa0' → ' '`, the character map of `text.replace(" ", " ")`. -/
def mapNBSPf (c : Char) : Char := if c = '\xa0' then ' ' else c

/-- The class `[ \t]` of `re.sub(r"[ \t]+", " ", text)`. -/
def isHT (c : Char) : Bool := c = ' ' || c = '\t'

/-- `re.sub(r"[ \t]+", " ", text)`: collapse every run of spaces/tabs to a
single space. -/
def collapseHT (inRun : Bool) : List Char → List Char
  | [] => []
  | c :: cs =>
    if isHT c then
      if inRun then collapseHT true cs else ' ' :: collapseHT true cs
    else c :: collapseHT false cs

/-- `re.sub(r"\n{3,}", "\n\n", text)`: cap every maximal newline run at
two (runs of one or two newlines are untouched; longer runs keep exactly
their first two newlines). -/
def capNL (seen : Nat) : List Char → List Char
  | [] => []
  | c :: cs =>
    if c = '\n' then
      if seen < 2 then '\n' :: capNL (seen + 1) cs else capNL seen cs
    else c :: capNL 0 cs

/-- Translation of `normalize_text` from the cleaner: CRLF/CR to LF,
non-breaking space to space, horizontal-whitespace collapse, blank-line
cap, edge trim. -/
def normalize_text (text : String) : String :=
  ⟨pyStrip (capNL 0 (collapseHT false
    (((replaceCRLF text.data).map mapCRf).map mapNBSPf)))⟩

/-- No carriage return present. -/
def noCR (l : List Char) : Bool := l.all (fun c => !(c = '\r'))

/-- No non-breaking space present. -/
def noNBSP (l : List Char) : Bool := l.all (fun c => !(c = '\xa0'))

/-- No tab present. -/
def noTab (l : List Char) : Bool := l.all (fun c => !(c = '\t'))

/-- Is the first character a space or tab? -/
def headHT : List Char → Bool
  | [] => false
  | c :: _ => isHT c

/-- No two adjacent characters are both spaces/tabs. -/
def noHTPair : List Char → Bool
  | a :: b :: r => !(isHT a && isHT b) && noHTPair (b :: r)
  | _ => true

/-- Starts with a newline. -/
def startN : List Char → Bool
  | '\n' :: _ => true
  | _ => false

/-- Starts with two newlines. -/
def startNN : List Char → Bool
  | '\n' :: '\n' :: _ => true
  | _ => false

/-- No three adjacent newlines. -/
def noTripleNL : List Char → Bool
  | a :: b :: c :: r => !(a = '\n' && b = '\n' && c = '\n') && noTripleNL (b :: c :: r)
  | _ => true

/-! ### Helper lemmas: decimal rendering -/

theorem digitChar10_isDigitB (d : Nat) : isDigitB (digitChar10 d) = true := by
  unfold digitChar10; split <;> decide

theorem digitChar10_not_space (d : Nat) : pySpaceB (digitChar10 d) = false := by
  unfold digitChar10; split <;> decide

theorem digitChar10_ne_nl (d : Nat) : digitChar10 d ≠ '\n' := by
  unfold digitChar10; split <;> decide

theorem digitChar10_toNat (d : Nat) (h : d < 10) :
    (digitChar10 d).toNat - '0'.toNat = d := by
  interval_cases d <;> rfl

theorem natToCharsAux_all_digits :
    ∀ fuel n, (natToCharsAux fuel n).all isDigitB = true := by
  intro fuel
  induction fuel with
  | zero => intro n; rfl
  | succ f ih =>
    intro n
    unfold natToCharsAux
    by_cases h : n = 0
    · simp [h]
    · simp [h, List.all_append, ih, digitChar10_isDigitB]

theorem natToCharsAux_ne_nil (fuel n : Nat) (h1 : 1 ≤ n) (h2 : n ≤ fuel) :
    natToCharsAux fuel n ≠ [] := by
  cases fuel with
  | zero => omega
  | succ f =>
    unfold natToCharsAux
    simp [show n ≠ 0 by omega]

theorem natToCharsAux_foldl : ∀ fuel n a, n ≤ fuel →
    List.foldl (fun acc c => acc * 10 + (c.toNat - '0'.toNat)) a
      (natToCharsAux fuel n) =
    a * 10 ^ (natToCharsAux fuel n).length + n := by
  intro fuel
  induction fuel with
  | zero =>
    intro n a h
    have : n = 0 := by omega
    simp [this, natToCharsAux]
  | succ f ih =>
    intro n a h
    by_cases h0 : n = 0
    · simp [h0, natToCharsAux]
    · have hrw : natToCharsAux (f + 1) n =
          natToCharsAux f (n / 10) ++ [digitChar10 (n % 10)] := by
        rw [natToCharsAux]; simp [h0]
      have hdiv : n / 10 ≤ f := by
        have : n / 10 < n := Nat.div_lt_self (Nat.pos_of_ne_zero h0) (by norm_num)
        omega
      rw [hrw, List.foldl_append, ih (n / 10) a hdiv]
      simp only [List.foldl_cons, List.foldl_nil, List.length_append,
        List.length_cons, List.length_nil]
      rw [digitChar10_toNat _ (Nat.mod_lt n (by norm_num))]
      have hmod : 10 * (n / 10) + n % 10 = n := Nat.div_add_mod n 10
      have hkey : (a * 10 ^ (natToCharsAux f (n / 10)).length + n / 10) * 10 + n % 10 =
          a * (10 ^ (natToCharsAux f (n / 10)).length * 10) +
            (10 * (n / 10) + n % 10) := by ring
      rw [hkey, hmod, pow_succ]

theorem natToCharsAux_length_le : ∀ fuel n k, n ≤ fuel → n < 10 ^ k →
    (natToCharsAux fuel n).length ≤ k := by
  intro fuel
  induction fuel with
  | zero => intro n k _ _; simp [natToCharsAux]
  | succ f ih =>
    intro n k h hk
    by_cases h0 : n = 0
    · simp [h0, natToCharsAux]
    · have hrw : natToCharsAux (f + 1) n =
          natToCharsAux f (n / 10) ++ [digitChar10 (n % 10)] := by
        rw [natToCharsAux]; simp [h0]
      have hkpos : k ≠ 0 := by
        intro hk0; rw [hk0] at hk; simp at hk; omega
      obtain ⟨k', rfl⟩ : ∃ k', k = k' + 1 := ⟨k - 1, by omega⟩
      have hdivlt : n / 10 < 10 ^ k' := by
        rw [Nat.div_lt_iff_lt_mul (by norm_num)]
        calc n < 10 ^ (k' + 1) := hk
        _ = 10 ^ k' * 10 := by rw [pow_succ]
      have hdiv : n / 10 ≤ f := by
        have : n / 10 < n := Nat.div_lt_self (Nat.pos_of_ne_zero h0) (by norm_num)
        omega
      rw [hrw]
      simp only [List.length_append, List.length_cons, List.length_nil]
      have := ih (n / 10) k' hdiv hdivlt
      omega

theorem natToCharsAux_length_ge : ∀ fuel n k, n ≤ fuel → 10 ^ k ≤ n →
    k + 1 ≤ (natToCharsAux fuel n).length := by
  intro fuel
  induction fuel with
  | zero =>
    intro n k h hk
    have : n = 0 := by omega
    have hpow : 0 < 10 ^ k := Nat.pos_pow_of_pos k (by norm_num)
    omega
  | succ f ih =>
    intro n k h hk
    have h0 : n ≠ 0 := by
      have hpow : 0 < 10 ^ k := Nat.pos_pow_of_pos k (by norm_num)
      omega
    have hrw : natToCharsAux (f + 1) n =
        natToCharsAux f (n / 10) ++ [digitChar10 (n % 10)] := by
      rw [natToCharsAux]; simp [h0]
    have hdiv : n / 10 ≤ f := by
      have : n / 10 < n := Nat.div_lt_self (Nat.pos_of_ne_zero h0) (by norm_num)
      omega
    rw [hrw]
    simp only [List.length_append, List.length_cons, List.length_nil]
    cases k with
    | zero => omega
    | succ k' =>
      have hge : 10 ^ k' ≤ n / 10 := by
        rw [Nat.le_div_iff_mul_le (by norm_num)]
        calc 10 ^ k' * 10 = 10 ^ (k' + 1) := by rw [pow_succ]
        _ ≤ n := hk
      have := ih (n / 10) k' hdiv hge
      omega

theorem natToCharsAux_headNot :
    ∀ fuel n, headNot pySpaceB (natToCharsAux fuel n) = true := by
  intro fuel
  induction fuel with
  | zero => intro n; rfl
  | succ f ih =>
    intro n
    unfold natToCharsAux
    by_cases h0 : n = 0
    · simp [h0, headNot]
    · simp only [h0, if_neg, ite_false]
      cases hx : natToCharsAux f (n / 10) with
      | nil => simp [headNot, digitChar10_not_space]
      | cons c cs =>
        have := ih (n / 10)
        rw [hx] at this
        simpa [headNot] using this

theorem natToCharsAux_no_nl : ∀ fuel n, '\n' ∉ natToCharsAux fuel n := by
  intro fuel
  induction fuel with
  | zero => intro n; simp [natToCharsAux]
  | succ f ih =>
    intro n
    unfold natToCharsAux
    by_cases h0 : n = 0
    · simp [h0]
    · simp only [h0, ite_false]
      intro hmem
      rcases List.mem_append.mp hmem with hmem | hmem
      · exact ih (n / 10) hmem
      · simp at hmem
        exact digitChar10_ne_nl (n % 10) hmem.symm

theorem natToChars_all_digits (m : Nat) : (natToChars m).all isDigitB = true := by
  unfold natToChars
  by_cases h : m = 0
  · subst h; decide
  · simp [h, natToCharsAux_all_digits]

theorem natToChars_ne_nil (m : Nat) : natToChars m ≠ [] := by
  unfold natToChars
  by_cases h : m = 0
  · simp [h]
  · simpa [h] using natToCharsAux_ne_nil m m (by omega) (le_refl m)

theorem natOfDigits_natToChars (m : Nat) : natOfDigits (natToChars m) = m := by
  unfold natToChars natOfDigits
  by_cases h : m = 0
  · simp [h]
  · simp only [h, ite_false]
    rw [natToCharsAux_foldl m m 0 (le_refl m)]
    simp

theorem natToChars_length_le3 (m : Nat) (h : m ≤ 999) :
    (natToChars m).length ≤ 3 := by
  unfold natToChars
  by_cases h0 : m = 0
  · simp [h0]
  · simp only [h0, ite_false]
    exact natToCharsAux_length_le m m 3 (le_refl m) (by omega)

theorem natToChars_length_gt3 (m : Nat) (h : 1000 ≤ m) :
    3 < (natToChars m).length := by
  unfold natToChars
  have h0 : m ≠ 0 := by omega
  simp only [h0, ite_false]
  have := natToCharsAux_length_ge m m 3 (le_refl m) (by simpa using h)
  omega

theorem natToChars_headNot (m : Nat) : headNot pySpaceB (natToChars m) = true := by
  unfold natToChars
  by_cases h : m = 0
  · simp [h]; rfl
  · simp only [h, ite_false]; exact natToCharsAux_headNot m m

theorem natToChars_no_nl (m : Nat) : '\n' ∉ natToChars m := by
  unfold natToChars
  by_cases h : m = 0
  · simp [h]
  · simp only [h, ite_false]; exact natToCharsAux_no_nl m m

/-! ### Helper lemmas: scanning and stripping -/

theorem scan_append (p : Char → Bool) : ∀ (A B : List Char), A.all p = true →
    headNot p B = true →
    (A ++ B).takeWhile p = A ∧ (A ++ B).dropWhile p = B := by
  intro A
  induction A with
  | nil =>
    intro B _ hB
    cases B with
    | nil => simp
    | cons c cs =>
      have hc : p c = false := by simpa [headNot] using hB
      simp [List.takeWhile_cons, List.dropWhile_cons, hc]
  | cons a A ih =>
    intro B hall hB
    simp only [List.all_cons, Bool.and_eq_true] at hall
    have := ih B hall.2 hB
    simp [List.takeWhile_cons, List.dropWhile_cons, hall.1, this.1, this.2]

theorem headNot_dropWhile (p : Char → Bool) (l : List Char) :
    headNot p (l.dropWhile p) = true := by
  induction l with
  | nil => rfl
  | cons c cs ih =>
    rw [List.dropWhile_cons]
    by_cases h : p c
    · simpa [h] using ih
    · simp [h, headNot]

theorem dropWhile_eq_self (p : Char → Bool) (l : List Char)
    (h : headNot p l = true) : l.dropWhile p = l := by
  cases l with
  | nil => rfl
  | cons c cs =>
    have hc : p c = false := by simpa [headNot] using h
    simp [List.dropWhile_cons, hc]

theorem dropTrail_eq_self (p : Char → Bool) : ∀ l : List Char,
    lastNot p l = true → dropTrail p l = l := by
  intro l
  induction l with
  | nil => intro _; rfl
  | cons c cs ih =>
    intro h
    cases cs with
    | nil =>
      have hc : p c = false := by simpa [lastNot, List.getLast?] using h
      simp [dropTrail, hc]
    | cons d ds =>
      have htail : lastNot p (d :: ds) = true := by
        simpa [lastNot, List.getLast?_cons_cons] using h
      have hstep : dropTrail p (c :: d :: ds) =
          match dropTrail p (d :: ds) with
          | [] => if p c then [] else [c]
          | e :: es => c :: e :: es := rfl
      rw [hstep, ih htail]

theorem lastNot_dropTrail (p : Char → Bool) : ∀ l : List Char,
    lastNot p (dropTrail p l) = true := by
  intro l
  induction l with
  | nil => rfl
  | cons c cs ih =>
    have hstep : dropTrail p (c :: cs) =
        match dropTrail p cs with
        | [] => if p c then [] else [c]
        | e :: es => c :: e :: es := rfl
    rw [hstep]
    cases hx : dropTrail p cs with
    | nil =>
      by_cases hc : p c
      · simp [hc, lastNot]
      · simp [hc, lastNot, List.getLast?]
    | cons d ds =>
      rw [hx] at ih
      simpa [lastNot, List.getLast?_cons_cons] using ih

theorem getLast?_dropWhile (p : Char → Bool) : ∀ l : List Char,
    l.dropWhile p ≠ [] → (l.dropWhile p).getLast? = l.getLast? := by
  intro l
  induction l with
  | nil => intro h; simp at h
  | cons c cs ih =>
    intro h
    rw [List.dropWhile_cons] at h ⊢
    by_cases hc : p c
    · simp only [hc, if_true, ite_true] at h ⊢
      have hcs : cs ≠ [] := by
        intro h0; rw [h0] at h; simp at h
      obtain ⟨d, ds, rfl⟩ := List.exists_cons_of_ne_nil hcs
      rw [ih h, List.getLast?_cons_cons]
    · simp [hc]

theorem dropTrail_sublist (p : Char → Bool) : ∀ l : List Char,
    List.Sublist (dropTrail p l) l := by
  intro l
  induction l with
  | nil => simp [dropTrail]
  | cons c cs ih =>
    have hstep : dropTrail p (c :: cs) =
        match dropTrail p cs with
        | [] => if p c then [] else [c]
        | e :: es => c :: e :: es := rfl
    rw [hstep]
    cases hx : dropTrail p cs with
    | nil =>
      by_cases hc : p c
      · simp [hc]
      · simp only [hc, if_false, ite_false]
        exact (List.nil_sublist cs).cons₂ c
    | cons d ds =>
      rw [hx] at ih
      exact ih.cons₂ c

theorem pyStrip_sublist (l : List Char) : List.Sublist (pyStrip l) l :=
  (dropTrail_sublist pySpaceB (l.dropWhile pySpaceB)).trans (List.dropWhile_sublist pySpaceB)

/-! ### Helper lemmas: `parseNumLine` and the renumbering loop -/

theorem parseNumLine_some (s : List Char) (n : Nat) (body : List Char)
    (h : parseNumLine s = some (n, body)) :
    body ≠ [] ∧ headNot pySpaceB body = true ∧
      body.getLast? = s.getLast? ∧ List.Sublist body s := by
  simp only [parseNumLine] at h
  split at h
  · exact absurd h (by simp)
  · split at h
    · rename_i r hdrop
      split at h
      · exact absurd h (by simp)
      · rename_i body0 hr
        split at h
        · exact absurd h (by simp)
        · rename_i hne0
          injection h with h'
          injection h' with h1 h2
          subst h2
          -- unpack dropWs1
          cases r with
          | nil => simp [dropWs1] at hr
          | cons c cs =>
            simp only [dropWs1] at hr
            split at hr
            · injection hr with hr
              subst hr
              have hbne : cs.dropWhile pySpaceB ≠ [] := by
                intro h0
                rw [h0] at hne0
                simp at hne0
              have hcsne : cs ≠ [] := by
                intro h0; rw [h0] at hbne; simp at hbne
              refine ⟨hbne, headNot_dropWhile pySpaceB cs, ?_, ?_⟩
              · have e1 : (cs.dropWhile pySpaceB).getLast? = cs.getLast? :=
                  getLast?_dropWhile pySpaceB cs hbne
                obtain ⟨d, ds, rfl⟩ := List.exists_cons_of_ne_nil hcsne
                have e2 : (c :: d :: ds).getLast? = (d :: ds).getLast? :=
                  List.getLast?_cons_cons
                have e3 : ('.' :: c :: d :: ds).getLast? = (c :: d :: ds).getLast? :=
                  List.getLast?_cons_cons
                have hdne : s.dropWhile isDigitB ≠ [] := by rw [hdrop]; simp
                have e4 : (s.dropWhile isDigitB).getLast? = s.getLast? :=
                  getLast?_dropWhile isDigitB s hdne
                rw [e1, ← e2, ← e3, ← hdrop, e4]
              · have s1 : List.Sublist (cs.dropWhile pySpaceB) cs :=
                  List.dropWhile_sublist pySpaceB
                have s2 : List.Sublist cs (c :: cs) := List.sublist_cons_self c cs
                have s3 : List.Sublist (c :: cs) ('.' :: c :: cs) :=
                  List.sublist_cons_self '.' (c :: cs)
                have s4 : List.Sublist (s.dropWhile isDigitB) s :=
                  List.dropWhile_sublist isDigitB
                rw [← hdrop] at s3
                exact ((s1.trans s2).trans s3).trans s4
            · exact absurd hr (by simp)
    · exact absurd h (by simp)

theorem headNot_digit_dot :
    headNot isDigitB ('.' :: ' ' :: ([] : List Char)) = true := by decide

theorem parseNumLine_render (m : Nat) (body : List Char) (hm : m ≤ 999)
    (hb : body ≠ []) (hhead : headNot pySpaceB body = true) :
    parseNumLine (natToChars m ++ '.' :: ' ' :: body) = some (m, body) := by
  obtain ⟨htake, hdrop⟩ := scan_append isDigitB (natToChars m) ('.' :: ' ' :: body)
    (natToChars_all_digits m) (by simp [headNot]; decide)
  have hne := natToChars_ne_nil m
  have hlen := natToChars_length_le3 m hm
  simp only [parseNumLine, htake, hdrop]
  rw [if_neg (by simp [List.isEmpty_iff, hne]; omega)]
  simp only [dropWs1, (by decide : pySpaceB ' ' = true), if_pos,
    dropWhile_eq_self pySpaceB body hhead, ite_true]
  rw [if_neg (by simp [List.isEmpty_iff, hb])]
  rw [natOfDigits_natToChars]

theorem parseNumLine_render_big (m : Nat) (body : List Char) (hm : 1000 ≤ m) :
    parseNumLine (natToChars m ++ '.' :: ' ' :: body) = none := by
  obtain ⟨htake, hdrop⟩ := scan_append isDigitB (natToChars m) ('.' :: ' ' :: body)
    (natToChars_all_digits m) (by simp [headNot]; decide)
  have hlen := natToChars_length_gt3 m hm
  simp only [parseNumLine, htake, hdrop]
  rw [if_pos (by simp; omega)]

theorem pyStrip_render (m : Nat) (body : List Char) (hb : body ≠ [])
    (hlast : lastNot pySpaceB body = true) :
    pyStrip (natToChars m ++ '.' :: ' ' :: body) =
      natToChars m ++ '.' :: ' ' :: body := by
  have hhead : headNot pySpaceB (natToChars m ++ '.' :: ' ' :: body) = true := by
    have hh := natToChars_headNot m
    cases hx : natToChars m with
    | nil => exact absurd hx (natToChars_ne_nil m)
    | cons c cs => rw [hx] at hh; simpa [headNot] using hh
  unfold pyStrip
  rw [dropWhile_eq_self _ _ hhead]
  apply dropTrail_eq_self
  have h1 : (natToChars m ++ '.' :: ' ' :: body).getLast? = body.getLast? := by
    rw [List.getLast?_append_of_ne_nil _ (by simp)]
    obtain ⟨d, ds, rfl⟩ := List.exists_cons_of_ne_nil hb
    rw [List.getLast?_cons_cons, List.getLast?_cons_cons]
  unfold lastNot at hlast ⊢
  rw [h1]
  exact hlast

theorem chain_lt_head_weaken {l : List Nat} {a b : Nat} (hab : a ≤ b)
    (h : List.Chain' (· < ·) (b :: l)) : List.Chain' (· < ·) (a :: l) := by
  cases l with
  | nil => simp
  | cons c l' =>
    rw [List.chain'_cons] at h ⊢
    exact ⟨lt_of_le_of_lt hab h.1, h.2⟩

theorem dupLoop_cons (last : Nat) (l : List Char) (ls : List (List Char)) :
    dupLoop last (l :: ls) = (dupStep last l).2 :: dupLoop (dupStep last l).1 ls := rfl

theorem dupLoop_chain : ∀ (ls : List (List Char)) (last : Nat),
    List.Chain' (· < ·) (last :: lineOrdinals (dupLoop last ls)) := by
  intro ls
  induction ls with
  | nil => intro last; simp [dupLoop, lineOrdinals]
  | cons l ls ih =>
    intro last
    rcases hp : parseNumLine (pyStrip l) with _ | ⟨n, rest⟩
    · have hstep : dupStep last l = (last, l) := by simp [dupStep, hp]
      rw [dupLoop_cons, hstep]
      simp only [lineOrdinals, List.filterMap_cons, hp, Option.map_none']
      exact ih last
    · by_cases hle : n ≤ last
      · obtain ⟨hne, hhead, hlastq, _⟩ := parseNumLine_some (pyStrip l) n rest hp
        have hlastNot : lastNot pySpaceB rest = true := by
          unfold lastNot
          rw [hlastq]
          have hlt := lastNot_dropTrail pySpaceB (l.dropWhile pySpaceB)
          unfold lastNot at hlt
          exact hlt
        have hstep : dupStep last l =
            (last + 1, natToChars (last + 1) ++ '.' :: ' ' :: rest) := by
          simp [dupStep, hp, hle]
        rw [dupLoop_cons, hstep]
        by_cases hbig : last + 1 ≤ 999
        · have hps := pyStrip_render (last + 1) rest hne hlastNot
          have hpr := parseNumLine_render (last + 1) rest hbig hne hhead
          simp only [lineOrdinals, List.filterMap_cons, hps, hpr, Option.map_some']
          rw [List.chain'_cons]
          exact ⟨Nat.lt_succ_self last, ih (last + 1)⟩
        · have hps := pyStrip_render (last + 1) rest hne hlastNot
          have hpr := parseNumLine_render_big (last + 1) rest (by omega)
          simp only [lineOrdinals, List.filterMap_cons, hps, hpr, Option.map_none']
          exact chain_lt_head_weaken (Nat.le_succ last) (ih (last + 1))
      · have hstep : dupStep last l = (n, l) := by simp [dupStep, hp, hle]
        rw [dupLoop_cons, hstep]
        simp only [lineOrdinals, List.filterMap_cons, hp, Option.map_some']
        rw [List.chain'_cons]
        exact ⟨by omega, ih n⟩

/-! ### Helper lemmas: line splitting and joining -/

theorem splitNL_ne_nil : ∀ x : List Char, splitNL x ≠ [] := by
  intro x
  cases x with
  | nil => simp [splitNL]
  | cons c r =>
    simp only [splitNL]
    by_cases h : c = '\n'
    · simp [h]
    · simp only [h, ite_false]
      split <;> simp

theorem mem_splitNL_no_nl : ∀ (x l : List Char), l ∈ splitNL x → '\n' ∉ l := by
  intro x
  induction x with
  | nil =>
    intro l hl
    simp [splitNL] at hl
    simp [hl]
  | cons c r ih =>
    intro l hl
    simp only [splitNL] at hl
    by_cases hc : c = '\n'
    · rw [if_pos hc] at hl
      rcases List.mem_cons.mp hl with rfl | hl
      · simp
      · exact ih l hl
    · rw [if_neg hc] at hl
      cases hx : splitNL r with
      | nil => exact absurd hx (splitNL_ne_nil r)
      | cons l0 ls =>
        rw [hx] at hl
        rcases List.mem_cons.mp hl with rfl | hl
        · intro hmem
          rcases List.mem_cons.mp hmem with h1 | h1
          · exact hc h1.symm
          · exact ih l0 (by rw [hx]; exact List.mem_cons_self l0 ls) h1
        · exact ih l (by rw [hx]; exact List.mem_cons_of_mem _ hl)

theorem splitNL_single : ∀ l : List Char, '\n' ∉ l → splitNL l = [l] := by
  intro l
  induction l with
  | nil => intro _; rfl
  | cons c r ih =>
    intro h
    have hc : ¬ c = '\n' := fun h0 => h (h0 ▸ List.mem_cons_self c r)
    have hr : splitNL r = [r] := ih (fun h0 => h (List.mem_cons_of_mem c h0))
    simp only [splitNL, hc, ite_false, hr]

theorem splitNL_append (l t : List Char) (h : '\n' ∉ l) :
    splitNL (l ++ '\n' :: t) = l :: splitNL t := by
  induction l with
  | nil => simp [splitNL]
  | cons c l' ih =>
    have hc : ¬ c = '\n' := fun h0 => h (h0 ▸ List.mem_cons_self c l')
    have hrec := ih (fun h0 => h (List.mem_cons_of_mem c h0))
    simp only [List.cons_append, splitNL, hc, ite_false]
    rw [List.append_eq, hrec]

theorem splitNL_joinNL : ∀ ls : List (List Char), ls ≠ [] →
    (∀ l ∈ ls, '\n' ∉ l) → splitNL (joinNL ls) = ls := by
  intro ls
  induction ls with
  | nil => intro h; exact absurd rfl h
  | cons l ls ih =>
    intro _ hmem
    cases ls with
    | nil => simpa [joinNL] using splitNL_single l (hmem l (by simp))
    | cons l2 ls2 =>
      have hj : joinNL (l :: l2 :: ls2) = l ++ '\n' :: joinNL (l2 :: ls2) := rfl
      rw [hj, splitNL_append l _ (hmem l (by simp)),
        ih (by simp) (fun x hx => hmem x (List.mem_cons_of_mem _ hx))]

theorem dupLoop_length : ∀ (ls : List (List Char)) (last : Nat),
    (dupLoop last ls).length = ls.length := by
  intro ls
  induction ls with
  | nil => intro last; rfl
  | cons l ls ih =>
    intro last
    rw [dupLoop_cons]
    simp [ih]

theorem dupLoop_no_nl : ∀ (ls : List (List Char)) (last : Nat),
    (∀ l ∈ ls, '\n' ∉ l) → ∀ l2 ∈ dupLoop last ls, '\n' ∉ l2 := by
  intro ls
  induction ls with
  | nil => intro last _ l2 h2; simp [dupLoop] at h2
  | cons l ls ih =>
    intro last hmem l2 h2
    rw [dupLoop_cons] at h2
    rcases List.mem_cons.mp h2 with rfl | h2
    · rcases hp : parseNumLine (pyStrip l) with _ | ⟨n, rest⟩
      · simpa [dupStep, hp] using hmem l (by simp)
      · by_cases hle : n ≤ last
        · simp only [dupStep, hp, hle, ite_true]
          intro hnl
          rcases List.mem_append.mp hnl with hnl | hnl
          · exact natToChars_no_nl (last + 1) hnl
          · rcases List.mem_cons.mp hnl with h1 | h1
            · exact absurd h1.symm (by decide)
            · rcases List.mem_cons.mp h1 with h1 | h1
              · exact absurd h1.symm (by decide)
              · obtain ⟨_, _, _, hsub⟩ := parseNumLine_some (pyStrip l) n rest hp
                exact hmem l (by simp)
                  ((pyStrip_sublist l).subset (hsub.subset h1))
        · simpa [dupStep, hp, hle] using hmem l (by simp)
    · exact ih (dupStep last l).1 (fun x hx => hmem x (List.mem_cons_of_mem _ hx)) l2 h2

/-- C10: `remove_page_numbers` is exactly the positional-context-free filter
that drops every line whose stripped content is a bare 1-to-3-digit number
or starts with `Page N of M` (case-insensitive), wherever the line occurs;
in particular a lonely paragraph ordinal line "7" is removed. -/
theorem remove_page_numbers_spec :
    (∀ ls : List (List Char), removePageLines ls =
        ls.filter (fun l => !isBareNumB (pyStrip l) && !isPageMarkerB (pyStrip l))) ∧
    (∀ ls : List (List Char), (removePageLines ls).all
        (fun l => !isBareNumB (pyStrip l) && !isPageMarkerB (pyStrip l))) ∧
    remove_page_numbers "Intro\n7\nNext para" = "Intro\nNext para" ∧
    remove_page_numbers "A\nPage 3 of 10\nB" = "A\nB" := by
  have hfilter : ∀ ls : List (List Char), removePageLines ls =
      ls.filter (fun l => !isBareNumB (pyStrip l) && !isPageMarkerB (pyStrip l)) := by
    intro ls
    induction ls with
    | nil => rfl
    | cons l ls ih =>
      by_cases h1 : isBareNumB (pyStrip l) <;>
        by_cases h2 : isPageMarkerB (pyStrip l) <;>
          simp [removePageLines, List.filter, h1, h2, ih]
  refine ⟨hfilter, ?_, by decide, by decide⟩
  intro ls
  rw [hfilter, List.all_eq_true]
  intro l hl
  exact (List.mem_filter.mp hl).2

/-- C9: `fix_duplicate_paragraph_numbers` yields strictly increasing
paragraph ordinals: any line matching `^(\d{1,3})\.\s+(.+)$` (after
stripping) whose ordinal is ≤ the previous one is rewritten to
`previous + 1`, and the ordinals of the numbered lines of the output are
strictly increasing — no equal ordinals and no numbering reset survives. -/
theorem fix_duplicate_paragraph_numbers_spec :
    (∀ content : String, List.Chain' (· < ·)
        (lineOrdinals (splitNL (fix_duplicate_paragraph_numbers content).data))) ∧
    (∀ (last : Nat) (line : List Char) (n : Nat) (rest : List Char),
        parseNumLine (pyStrip line) = some (n, rest) → n ≤ last →
        dupStep last line = (last + 1, natToChars (last + 1) ++ '.' :: ' ' :: rest)) := by
  constructor
  · intro content
    have hdata : (fix_duplicate_paragraph_numbers content).data =
        joinNL (dupLoop 0 (splitNL content.data)) := rfl
    rw [hdata]
    have hnn : ∀ l ∈ splitNL content.data, '\n' ∉ l :=
      fun l hl => mem_splitNL_no_nl _ l hl
    have hne : dupLoop 0 (splitNL content.data) ≠ [] := by
      intro h0
      have hlen := dupLoop_length (splitNL content.data) 0
      rw [h0] at hlen
      exact splitNL_ne_nil content.data (List.length_eq_zero.mp hlen.symm)
    rw [splitNL_joinNL _ hne (dupLoop_no_nl _ 0 hnn)]
    exact (dupLoop_chain (splitNL content.data) 0).tail
  · intro last line n rest hp hle
    simp [dupStep, hp, hle]

/-- Witness for C9 at a concrete document: duplicated ordinal `12` is
rewritten to `13` and the output ordinals are strictly increasing. -/
theorem fix_duplicate_paragraph_numbers_witness :
    List.Chain' (· < ·) (lineOrdinals (splitNL
      (fix_duplicate_paragraph_numbers "12. A\n12. B\n7. C").data)) ∧
    dupStep 12 "12. B".data = (13, natToChars 13 ++ '.' :: ' ' :: "B".data) :=
  ⟨fix_duplicate_paragraph_numbers_spec.1 "12. A\n12. B\n7. C",
   fix_duplicate_paragraph_numbers_spec.2 12 "12. B".data 12 "B".data
     (by decide) (by decide)⟩

/-! ### Helper lemmas: the greedy interval sweep -/

theorem sweep_pairwise : ∀ (l acc : List (Nat × Nat)),
    List.Pairwise (fun a b => ¬(a.1 < b.2 ∧ b.1 < a.2)) acc →
    List.Pairwise (fun a b => ¬(a.1 < b.2 ∧ b.1 < a.2)) (sweep acc l) := by
  intro l
  induction l with
  | nil => intro acc h; exact h
  | cons c rest ih =>
    intro acc h
    by_cases hov : acc.any (fun u => overlapB c u) = true
    · simpa [sweep, hov] using ih acc h
    · have hok : ∀ u ∈ acc, ¬(u.1 < c.2 ∧ c.1 < u.2) := by
        intro u hu hcon
        apply hov
        rw [List.any_eq_true]
        refine ⟨u, hu, ?_⟩
        simp only [overlapB, Bool.and_eq_true, decide_eq_true_eq]
        omega
      have hpw : List.Pairwise (fun a b => ¬(a.1 < b.2 ∧ b.1 < a.2)) (acc ++ [c]) := by
        rw [List.pairwise_append]
        refine ⟨h, List.pairwise_singleton _ _, ?_⟩
        intro a ha b hb
        simp only [List.mem_singleton] at hb
        subst hb
        exact hok a ha
      simpa [sweep, hov] using ih (acc ++ [c]) hpw

theorem sweep_subset : ∀ (l acc : List (Nat × Nat)) (x : Nat × Nat),
    x ∈ sweep acc l → x ∈ acc ∨ x ∈ l := by
  intro l
  induction l with
  | nil => intro acc x h; exact Or.inl h
  | cons c rest ih =>
    intro acc x h
    by_cases hov : acc.any (fun u => overlapB c u) = true
    · rw [show sweep acc (c :: rest) = sweep acc rest by simp [sweep, hov]] at h
      rcases ih acc x h with h1 | h1
      · exact Or.inl h1
      · exact Or.inr (List.mem_cons_of_mem c h1)
    · rw [show sweep acc (c :: rest) = sweep (acc ++ [c]) rest by
        simp [sweep, hov]] at h
      rcases ih (acc ++ [c]) x h with h1 | h1
      · rcases List.mem_append.mp h1 with h2 | h2
        · exact Or.inl h2
        · simp only [List.mem_singleton] at h2
          exact Or.inr (h2 ▸ List.mem_cons_self c rest)
      · exact Or.inr (List.mem_cons_of_mem c h1)

/-- C1: for every candidate list (hence for every input text), the set of
intervals accepted by the greedy sweep of `count_academic_references` is
pairwise non-overlapping, the returned count is the size of that accepted
list, and — since every regex match is a non-empty span — the accepted list
has no duplicates, so the count is the cardinality of the accepted set. -/
theorem count_academic_references_non_overlapping :
    ∀ cands : List (Nat × Nat),
      (List.Pairwise (fun a b => ¬(a.1 < b.2 ∧ b.1 < a.2))
          (sweep [] (cands.insertionSort candLE)) ∧
        count_academic_references cands =
          (sweep [] (cands.insertionSort candLE)).length) ∧
      ((∀ c ∈ cands, c.1 < c.2) →
        (sweep [] (cands.insertionSort candLE)).Nodup) := by
  intro cands
  have hpw := sweep_pairwise (cands.insertionSort candLE) [] List.Pairwise.nil
  refine ⟨⟨hpw, rfl⟩, ?_⟩
  intro hne
  have hmem : ∀ x ∈ sweep [] (cands.insertionSort candLE), x.1 < x.2 := by
    intro x hx
    rcases sweep_subset _ [] x hx with h | h
    · simp at h
    · exact hne x ((List.perm_insertionSort candLE cands).mem_iff.mp h)
  exact hpw.imp_of_mem (fun {a b} ha _ hab heq => by
    subst heq
    exact absurd ⟨hmem a ha, hmem a ha⟩ hab)

/-- Witness for C1's non-empty-span hypothesis at a concrete candidate
list. -/
theorem count_academic_references_non_overlapping_witness :
    (∀ c ∈ [((0 : Nat), (5 : Nat)), (3, 9), (10, 12)], c.1 < c.2) ∧
    (sweep [] ([((0 : Nat), (5 : Nat)), (3, 9), (10, 12)].insertionSort candLE)).Nodup :=
  ⟨by decide,
   (count_academic_references_non_overlapping [(0, 5), (3, 9), (10, 12)]).2 (by decide)⟩

/-- C2: candidates are processed in the order of `insertionSort candLE`
(ascending start offset, longer first on ties), and on the claim's
scenario — two overlapping candidates at the same offset of lengths 20 and
35, in either input order — only the 35-character span is accepted and the
count is 1. -/
theorem count_academic_references_longest_first :
    (∀ cands : List (Nat × Nat),
        List.Sorted candLE (cands.insertionSort candLE)) ∧
    count_academic_references [(0, 20), (0, 35)] = 1 ∧
    count_academic_references [(0, 35), (0, 20)] = 1 ∧
    sweep [] ([((0 : Nat), (20 : Nat)), (0, 35)].insertionSort candLE) = [(0, 35)] := by
  refine ⟨?_, by decide, by decide, by decide⟩
  intro cands
  exact List.sorted_insertionSort candLE cands

/-! ### Helper lemmas: citation tallies -/

theorem sumF_bump (f : Jurisdiction → Nat) (j : Jurisdiction) :
    sumF (bump f j) = sumF f + 1 := by
  cases j <;> (simp [sumF, bump]; omega)

/-- The loop invariant of `count_citations_by_jurisdiction`. -/
def citeInv (st : JCounts × JCounts × List String) : Prop :=
  (∀ j, st.2.1.perJ j ≤ st.1.perJ j) ∧ st.1.total = sumF st.1.perJ ∧
    st.2.1.total = sumF st.2.1.perJ

theorem citeStep_inv (st : JCounts × JCounts × List String) (m : CiteMatch)
    (h : citeInv st) : citeInv (citeStep st m) := by
  obtain ⟨h1, h2, h3⟩ := h
  unfold citeStep
  by_cases hg : (decide (2 ≤ (pyStrip (citeReporter m).data).length) &&
      !pyIsDigitStr (pyStrip (citeReporter m).data)) = true
  · rw [if_pos hg]
    by_cases hseen : citeKey m ∈ st.2.2
    · rw [if_pos hseen]
      refine ⟨?_, ?_, h3⟩
      · intro j2
        refine le_trans (h1 j2) ?_
        unfold bump
        by_cases he : j2 = classify_reporter ⟨pyStrip (citeReporter m).data⟩ <;>
          simp [he]
      · simpa [sumF_bump] using h2
    · rw [if_neg hseen]
      refine ⟨?_, ?_, ?_⟩
      · intro j2
        unfold bump
        by_cases he : j2 = classify_reporter ⟨pyStrip (citeReporter m).data⟩
        · simp only [he, if_pos rfl]
          exact Nat.succ_le_succ (h1 _)
        · simp only [if_neg he]
          exact h1 j2
      · simpa [sumF_bump] using h2
      · simpa [sumF_bump] using h3
  · rw [if_neg hg]
    exact ⟨h1, h2, h3⟩

theorem foldl_citeInv : ∀ (ms : List CiteMatch) st, citeInv st →
    citeInv (ms.foldl citeStep st) := by
  intro ms
  induction ms with
  | nil => intro st h; exact h
  | cons m ms ih =>
    intro st h
    exact ih (citeStep st m) (citeStep_inv st m h)

/-- C3: for every list of citation matches, the unique tally never exceeds
the total tally in any jurisdiction, and each dictionary's `'total'` cell
is the sum of its nine per-jurisdiction cells. -/
theorem count_citations_by_jurisdiction_spec :
    ∀ ms : List CiteMatch,
      (∀ j, (count_citations_by_jurisdiction ms).2.perJ j ≤
          (count_citations_by_jurisdiction ms).1.perJ j) ∧
      (count_citations_by_jurisdiction ms).1.total =
        sumF (count_citations_by_jurisdiction ms).1.perJ ∧
      (count_citations_by_jurisdiction ms).2.total =
        sumF (count_citations_by_jurisdiction ms).2.perJ := by
  intro ms
  have h := foldl_citeInv ms (⟨fun _ => 0, 0⟩, ⟨fun _ => 0, 0⟩, [])
    ⟨fun _ => Nat.le_refl 0, rfl, rfl⟩
  exact ⟨h.1, h.2.1, h.2.2⟩

/-! ### Theorems for claim C6 -/

/-- C6: on the concrete reporter token "A.C." the code classifies USA (the
single-letter USA code 'A' occurs in the un-period-stripped token) while
the claim's cleaning (periods removed) would classify UK via 'AC' — so
`classify_reporter` does not period-strip the token as claimed. -/
theorem classify_reporter_claimC6_counterexample :
    classify_reporter "A.C." = Jurisdiction.USA ∧
    classify_reporter_claimC6 "A.C." = Jurisdiction.UK ∧
    classify_reporter "A.C." ≠ classify_reporter_claimC6 "A.C." := by decide

/-- C6 (amended): `classify_reporter` upper-cases and strips surrounding
whitespace only (keeping periods and internal whitespace), then returns
the jurisdiction of the first set in the priority order SG, UK, AU, USA,
CAN, IND, NZ, EU containing a code related to the token by substring
containment in either direction; when no set matches the result is OTHER
(never None, never an exception). -/
theorem classify_reporter_priority :
    ∀ reporter : String,
      classify_reporter reporter = classify_reporter_specC6 reporter := by
  intro r
  simp only [classify_reporter, classify_reporter_specC6, priorityC6, List.find?]
  cases h1 : matchesSet SG_REPORTERS (pyUpper (pyStrip r.data))
  · cases h2 : matchesSet UK_REPORTERS (pyUpper (pyStrip r.data))
    · cases h3 : matchesSet AU_REPORTERS (pyUpper (pyStrip r.data))
      · cases h4 : matchesSet USA_REPORTERS (pyUpper (pyStrip r.data))
        · cases h5 : matchesSet CAN_REPORTERS (pyUpper (pyStrip r.data))
          · cases h6 : matchesSet IND_REPORTERS (pyUpper (pyStrip r.data))
            · cases h7 : matchesSet NZ_REPORTERS (pyUpper (pyStrip r.data))
              · cases h8 : matchesSet EU_REPORTERS (pyUpper (pyStrip r.data))
                · simp [h1, h2, h3, h4, h5, h6, h7, h8]
                · simp [h1, h2, h3, h4, h5, h6, h7, h8]
              · simp [h1, h2, h3, h4, h5, h6, h7]
            · simp [h1, h2, h3, h4, h5, h6]
          · simp [h1, h2, h3, h4, h5]
        · simp [h1, h2, h3, h4]
      · simp [h1, h2, h3]
    · simp [h1, h2]
  · simp [h1]

/-! ### Theorems for claim C4 -/

/-- C4: counterexample to the claimed monotonic-repair policy.  On the
document `CORE JUDGMENT / 5. Alpha / 3. Beta` the line `3. Beta` has
ordinal 3 ≤ last_ordinal 5 and no lost-leading-digit origin, yet it is NOT
forced to `last_ordinal + 1 = 6`: the output is unchanged, its core
ordinal sequence is `[5, 3]`, which decreases (`¬ 5 ≤ 3`) at a point that
is not a designated reset (the previous ordinal 5 is not ≥ 10). -/
theorem fix_paragraph_numbering_claim_counterexample :
    fix_paragraph_numbering "CORE JUDGMENT\n5. Alpha\n3. Beta" =
      "CORE JUDGMENT\n5. Alpha\n3. Beta" ∧
    coreOrdinals (fix_paragraph_numbering "CORE JUDGMENT\n5. Alpha\n3. Beta") =
      [5, 3] ∧
    ¬ (5 ≤ 3) ∧ ¬ (10 ≤ 5) := by decide

/-- C4 (amended): walking the lines after a `CORE JUDGMENT` marker with
`last_para_num`, the only rewriting `fix_paragraph_numbering` performs is
the lost-leading-digit repair: a numbered line with ordinal `n < 10` when
`10 ≤ last` and `n - 1 ≤ last % 10` is renumbered to
`(last/10)*10 + n`, bumped by a further 10 when that is ≤ `last` — the
repaired ordinal is always strictly greater than `last`.  Every other
line (in particular any line whose ordinal is ≤ `last` with no such
origin) passes through textually unchanged, so the output ordinal
sequence may decrease outside designated reset points. -/
theorem fix_paragraph_numbering_spec :
    (∀ (last : Nat) (line : List Char) (n : Nat) (rest : List Char),
        parseC4 (pyStrip line) = some (n, rest) → n < 10 → 10 ≤ last →
        n - 1 ≤ last % 10 →
        fixParaStep (true, last) line =
          ((true, if (last / 10) * 10 + n ≤ last
                  then (last / 10) * 10 + 10 + n
                  else (last / 10) * 10 + n),
            natToChars (if (last / 10) * 10 + n ≤ last
                  then (last / 10) * 10 + 10 + n
                  else (last / 10) * 10 + n) ++ '.' :: ' ' :: rest) ∧
        last < (if (last / 10) * 10 + n ≤ last
                then (last / 10) * 10 + 10 + n
                else (last / 10) * 10 + n)) ∧
    (∀ (last : Nat) (line : List Char) (n : Nat) (rest : List Char),
        parseC4 (pyStrip line) = some (n, rest) →
        ¬ (n < 10 ∧ 10 ≤ last ∧ n - 1 ≤ last % 10) →
        (fixParaStep (true, last) line).2 = line) ∧
    (∀ (st : Bool × Nat) (line : List Char),
        parseC4 (pyStrip line) = none → (fixParaStep st line).2 = line) ∧
    (∀ (last : Nat) (line : List Char),
        listSub coreMarker line = false →
        fixParaStep (false, last) line = ((false, last), line)) ∧
    fix_paragraph_numbering "CORE JUDGMENT\n10. Alpha\n1. Beta" =
      "CORE JUDGMENT\n10. Alpha\n11. Beta" := by
  refine ⟨?_, ?_, ?_, ?_, by decide⟩
  · intro last line n rest hp h1 h2 h3
    have hdm : 10 * (last / 10) + last % 10 = last := Nat.div_add_mod last 10
    have hm : last % 10 < 10 := Nat.mod_lt _ (by norm_num)
    constructor
    · simp [fixParaStep, hp, h1, h2, h3]
    · split <;> omega
  · intro last line n rest hp hng
    simp only [fixParaStep, Bool.true_or, Bool.not_true, Bool.false_eq_true,
      if_false, ite_false, hp]
    by_cases hc : n < 10 ∧ 10 ≤ last
    · have h3 : ¬ (n - 1 ≤ last % 10) := fun h => hng ⟨hc.1, hc.2, h⟩
      simp [hc, h3]
    · by_cases hd : n > last ∨ n = 1 <;> simp [hc, hd]
  · intro st line hp
    by_cases hin : (st.1 || listSub coreMarker line) = true <;>
      simp [fixParaStep, hp, hin]
  · intro last line hm
    simp [fixParaStep, hm]

/-- Witness for C4's amended statement: the lost-digit case `1.` after
`10.` is repaired to `11.`, and `3.` after `5.` passes through unchanged. -/
theorem fix_paragraph_numbering_spec_witness :
    fixParaStep (true, 10) "1. Beta".data =
      ((true, 11), natToChars 11 ++ '.' :: ' ' :: "Beta".data) ∧
    (fixParaStep (true, 5) "3. Beta".data).2 = "3. Beta".data := by
  constructor
  · have h := (fix_paragraph_numbering_spec.1 10 "1. Beta".data 1 "Beta".data
      (by decide) (by decide) (by decide) (by decide)).1
    rw [h]
    norm_num
  · exact fix_paragraph_numbering_spec.2.1 5 "3. Beta".data 3 "Beta".data
      (by decide) (by decide)

/-! ### Theorems for claim C5 -/

/-- C5: counterexample for the `extract_sections` half of the claim.  On
input with no section dividers at all, `extract_sections` returns all
three sections EMPTY — the core judgment is the empty string, not the
entire input text as the claim states. -/
theorem extract_sections_claimC5_counterexample :
    extract_sections "No section markers anywhere" = ("", "", "") ∧
    (extract_sections "No section markers anywhere").2.1 ≠
      "No section markers anywhere" := by decide

/-- C5 (amended): when no boundary is found, both segmentation operations
return without raising: `segment_head_core` falls back to an empty
headnotes and the ENTIRE input text as core, while `extract_sections`
(which requires explicit dividers) falls back to all three sections
empty. -/
theorem segmentation_fallback_spec :
    (∀ s : String,
        searchDotOne false 0
            (repair_space_separated_digits (collapseWS false s.data)) = none →
        segment_head_core s = ("", s)) ∧
    (∀ s : String,
        searchGroup hnAt s.data = none →
        searchGroup coreAt s.data = none →
        searchGroup fnAt s.data = none →
        extract_sections s = ("", "", "")) := by
  constructor
  · intro s h
    simp [segment_head_core, h]
  · intro s h1 h2 h3
    simp [extract_sections, h1, h2, h3]

/-- Witness for C5's amended statement on concrete marker-less inputs. -/
theorem segmentation_fallback_witness :
    segment_head_core "just prose, nothing numbered" =
      ("", "just prose, nothing numbered") ∧
    extract_sections "plain body text" = ("", "", "") :=
  ⟨segmentation_fallback_spec.1 "just prose, nothing numbered" (by decide),
   segmentation_fallback_spec.2 "plain body text" (by decide) (by decide)
     (by decide)⟩

/-! ### Helper lemmas for C7: generic `all` preservation -/

theorem all_of_sublist {p : Char → Bool} {l1 l2 : List Char}
    (h : List.Sublist l1 l2) (hall : l2.all p = true) : l1.all p = true := by
  rw [List.all_eq_true] at *
  exact fun x hx => hall x (h.subset hx)

theorem all_map_establish (f : Char → Char) (p : Char → Bool)
    (h : ∀ c, p (f c) = true) : ∀ l : List Char, (l.map f).all p = true := by
  intro l
  induction l with
  | nil => rfl
  | cons c cs ih => simp [h c, ih]

theorem all_map_keep (f : Char → Char) (p : Char → Bool)
    (h : ∀ c, p c = true → p (f c) = true) :
    ∀ l : List Char, l.all p = true → (l.map f).all p = true := by
  intro l
  induction l with
  | nil => intro _; rfl
  | cons c cs ih =>
    intro hl
    simp only [List.all_cons, Bool.and_eq_true] at hl
    simp [h c hl.1, ih hl.2]

theorem map_eq_self (f : Char → Char) (p : Char → Bool)
    (h : ∀ c, p c = true → f c = c) :
    ∀ l : List Char, l.all p = true → l.map f = l := by
  intro l
  induction l with
  | nil => intro _; rfl
  | cons c cs ih =>
    intro hl
    simp only [List.all_cons, Bool.and_eq_true] at hl
    simp [h c hl.1, ih hl.2]

theorem all_collapseHT (p : Char → Bool) (hsp : p ' ' = true) :
    ∀ (l : List Char) (b : Bool), l.all p = true → (collapseHT b l).all p = true := by
  intro l
  induction l with
  | nil => intro b _; rfl
  | cons c cs ih =>
    intro b hl
    simp only [List.all_cons, Bool.and_eq_true] at hl
    unfold collapseHT
    by_cases hc : isHT c = true
    · cases b with
      | true => simpa [hc] using ih true hl.2
      | false => simp [hc, hsp, ih true hl.2]
    · simp [hc, hl.1, ih false hl.2]

theorem all_capNL (p : Char → Bool) (hnl : p '\n' = true) :
    ∀ (l : List Char) (s : Nat), l.all p = true → (capNL s l).all p = true := by
  intro l
  induction l with
  | nil => intro s _; rfl
  | cons c cs ih =>
    intro s hl
    simp only [List.all_cons, Bool.and_eq_true] at hl
    unfold capNL
    by_cases hc : c = '\n'
    · by_cases hs : s < 2
      · simp [hc, hs, hnl, ih (s + 1) hl.2]
      · simp [hc, hs, ih s hl.2]
    · simp [hc, hl.1, ih 0 hl.2]

/-! ### Helper lemmas for C7: shape predicates -/

theorem noHTPair_cons (a : Char) (X : List Char) :
    noHTPair (a :: X) = (!(isHT a && headHT X) && noHTPair X) := by
  cases X <;> simp [noHTPair, headHT]

theorem startN_eq (b : Char) (r : List Char) : startN (b :: r) = decide (b = '\n') := by
  by_cases hb : b = '\n'
  · subst hb; simp [startN]
  · have h0 : startN (b :: r) = false := by
      unfold startN
      split
      · rename_i heq
        injection heq with h1 _
        exact absurd h1 hb
      · rfl
    simp [h0, hb]

theorem startNN_eq (b c : Char) (r : List Char) :
    startNN (b :: c :: r) = (b = '\n' && c = '\n') := by
  by_cases hb : b = '\n'
  · by_cases hc : c = '\n'
    · subst hb; subst hc; simp [startNN]
    · have h0 : startNN (b :: c :: r) = false := by
        unfold startNN
        split
        · rename_i heq
          injection heq with h1 h2
          injection h2 with h2 _
          exact absurd h2 hc
        · rfl
      simp [h0, hc]
  · have h0 : startNN (b :: c :: r) = false := by
      unfold startNN
      split
      · rename_i heq
        injection heq with h1 _
        exact absurd h1 hb
      · rfl
    simp [h0, hb]

theorem noTripleNL_cons (a : Char) (X : List Char) :
    noTripleNL (a :: X) = (!(a = '\n' && startNN X) && noTripleNL X) := by
  match X with
  | [] => simp [noTripleNL, startNN]
  | [b] =>
    have h0 : startNN [b] = false := by
      unfold startNN
      split <;> simp_all
    simp [noTripleNL, h0]
  | b :: c :: r =>
    rw [startNN_eq]
    simp [noTripleNL, Bool.or_assoc]

theorem noTripleNL_tail (a : Char) (X : List Char)
    (h : noTripleNL (a :: X) = true) : noTripleNL X = true := by
  rw [noTripleNL_cons, Bool.and_eq_true] at h
  exact h.2

theorem noHTPair_tail (a : Char) (X : List Char)
    (h : noHTPair (a :: X) = true) : noHTPair X = true := by
  rw [noHTPair_cons, Bool.and_eq_true] at h
  exact h.2

/-! ### Helper lemmas for C7: the stages fix their own output -/

theorem replaceCRLF_eq_self : ∀ l : List Char, noCR l = true →
    replaceCRLF l = l := by
  intro l
  induction l with
  | nil => intro _; rfl
  | cons c cs ih =>
    intro h
    simp only [noCR, List.all_cons, Bool.and_eq_true] at h
    have hc : ¬ c = '\r' := by simpa using h.1
    cases cs with
    | nil => rfl
    | cons d cs2 =>
      have hrec : replaceCRLF (d :: cs2) = d :: cs2 := ih h.2
      simp [replaceCRLF, hc, hrec]

theorem collapseHT_eq_self : ∀ l : List Char, noTab l = true →
    noHTPair l = true →
    collapseHT false l = l ∧ (headHT l = false → collapseHT true l = l) := by
  intro l
  induction l with
  | nil => intro _ _; exact ⟨rfl, fun _ => rfl⟩
  | cons c cs ih =>
    intro ht hp
    simp only [noTab, List.all_cons, Bool.and_eq_true] at ht
    rw [noHTPair_cons, Bool.and_eq_true] at hp
    have ihcs := ih ht.2 hp.2
    by_cases hc : isHT c = true
    · have hcsp : c = ' ' := by
        rcases (by simpa [isHT] using hc : c = ' ' ∨ c = '\t') with h | h
        · exact h
        · exact absurd h (by simpa using ht.1)
      have hhd : headHT cs = false := by
        cases h : headHT cs
        · rfl
        · rw [hc, h] at hp
          simp at hp
      constructor
      · have hstep : collapseHT false (c :: cs) = ' ' :: collapseHT true cs := by
          simp [collapseHT, hc]
        rw [hstep, ihcs.2 hhd, hcsp]
      · intro hfalse
        rw [show headHT (c :: cs) = isHT c from rfl, hc] at hfalse
        simp at hfalse
    · constructor
      · have hstep : collapseHT false (c :: cs) = c :: collapseHT false cs := by
          simp [collapseHT, hc]
        rw [hstep, ihcs.1]
      · intro _
        have hstep : collapseHT true (c :: cs) = c :: collapseHT false cs := by
          simp [collapseHT, hc]
        rw [hstep, ihcs.1]

theorem capNL_eq_self : ∀ l : List Char, noTripleNL l = true →
    capNL 0 l = l ∧ (startNN l = false → capNL 1 l = l) ∧
      (startN l = false → capNL 2 l = l) := by
  intro l
  induction l with
  | nil => intro _; exact ⟨rfl, fun _ => rfl, fun _ => rfl⟩
  | cons c cs ih =>
    intro h
    have hcs := noTripleNL_tail c cs h
    have ihcs := ih hcs
    by_cases hc : c = '\n'
    · subst hc
      rw [noTripleNL_cons, Bool.and_eq_true] at h
      have hnn : startNN cs = false := by
        cases h1 : startNN cs
        · rfl
        · rw [h1] at h
          simp at h
      refine ⟨?_, ?_, ?_⟩
      · simp only [capNL, if_pos rfl, ite_true, Nat.zero_lt_two, if_pos]
        simp [ihcs.2.1 hnn]
      · intro hns
        have hsN : startN cs = false := by
          cases cs with
          | nil => rfl
          | cons d ds =>
            rw [startN_eq]
            rw [startNN_eq] at hns
            simpa using hns
        simp only [capNL, if_pos rfl, ite_true]
        simp [ihcs.2.2 hsN]
      · intro hns
        rw [startN] at hns
        simp at hns
    · have hstep : ∀ s : Nat, capNL s (c :: cs) = c :: capNL 0 cs := by
        intro s
        simp [capNL, hc]
      refine ⟨?_, fun _ => ?_, fun _ => ?_⟩ <;> rw [hstep, ihcs.1]

theorem pyStrip_eq_self (l : List Char) (h1 : headNot pySpaceB l = true)
    (h2 : lastNot pySpaceB l = true) : pyStrip l = l := by
  unfold pyStrip
  rw [dropWhile_eq_self pySpaceB l h1]
  exact dropTrail_eq_self pySpaceB l h2

/-! ### Helper lemmas for C7: the first pass establishes the invariants -/

theorem noTab_collapseHT : ∀ (l : List Char) (b : Bool),
    noTab (collapseHT b l) = true := by
  intro l
  induction l with
  | nil => intro b; rfl
  | cons c cs ih =>
    intro b
    by_cases hc : isHT c = true
    · cases b with
      | true =>
        have hstep : collapseHT true (c :: cs) = collapseHT true cs := by
          simp [collapseHT, hc]
        rw [hstep]
        exact ih true
      | false =>
        have hstep : collapseHT false (c :: cs) = ' ' :: collapseHT true cs := by
          simp [collapseHT, hc]
        rw [hstep]
        simp only [noTab, List.all_cons, Bool.and_eq_true]
        exact ⟨by decide, ih true⟩
    · have hstep : collapseHT b (c :: cs) = c :: collapseHT false cs := by
        cases b <;> simp [collapseHT, hc]
      rw [hstep]
      simp only [noTab, List.all_cons, Bool.and_eq_true]
      have hct : (!(c = '\t')) = true := by
        by_cases h0 : c = '\t'
        · rw [h0] at hc
          simp [isHT] at hc
        · simp [h0]
      exact ⟨hct, ih false⟩

theorem collapseHT_props : ∀ l : List Char,
    noHTPair (collapseHT false l) = true ∧ noHTPair (collapseHT true l) = true ∧
      headHT (collapseHT true l) = false := by
  intro l
  induction l with
  | nil => exact ⟨rfl, rfl, rfl⟩
  | cons c cs ih =>
    by_cases hc : isHT c = true
    · have hf : collapseHT false (c :: cs) = ' ' :: collapseHT true cs := by
        simp [collapseHT, hc]
      have htr : collapseHT true (c :: cs) = collapseHT true cs := by
        simp [collapseHT, hc]
      refine ⟨?_, ?_, ?_⟩
      · rw [hf, noHTPair_cons]
        simp [ih.2.1, ih.2.2]
      · rw [htr]; exact ih.2.1
      · rw [htr]; exact ih.2.2
    · have hstep : ∀ b, collapseHT b (c :: cs) = c :: collapseHT false cs := by
        intro b
        cases b <;> simp [collapseHT, hc]
      refine ⟨?_, ?_, ?_⟩
      · rw [hstep false, noHTPair_cons]
        simp [hc, ih.1]
      · rw [hstep true, noHTPair_cons]
        simp [hc, ih.1]
      · rw [hstep true]
        simpa [headHT] using hc

theorem headHT_capNL0 (l : List Char) : headHT (capNL 0 l) = headHT l := by
  cases l with
  | nil => rfl
  | cons c cs =>
    by_cases hc : c = '\n'
    · subst hc
      simp [capNL, headHT, isHT]
    · simp [capNL, hc, headHT]

theorem headHT_capNL1 (l : List Char) : headHT (capNL 1 l) = headHT l := by
  cases l with
  | nil => rfl
  | cons c cs =>
    by_cases hc : c = '\n'
    · subst hc
      simp [capNL, headHT, isHT]
    · simp [capNL, hc, headHT]

theorem noHTPair_capNL : ∀ l : List Char, noHTPair l = true →
    noHTPair (capNL 0 l) = true ∧ noHTPair (capNL 1 l) = true ∧
      noHTPair (capNL 2 l) = true := by
  intro l
  induction l with
  | nil => intro _; exact ⟨rfl, rfl, rfl⟩
  | cons c cs ih =>
    intro h
    rw [noHTPair_cons, Bool.and_eq_true] at h
    have ihcs := ih h.2
    by_cases hc : c = '\n'
    · subst hc
      have h0 : capNL 0 ('\n' :: cs) = '\n' :: capNL 1 cs := by simp [capNL]
      have h1 : capNL 1 ('\n' :: cs) = '\n' :: capNL 2 cs := by simp [capNL]
      have h2 : capNL 2 ('\n' :: cs) = capNL 2 cs := by simp [capNL]
      refine ⟨?_, ?_, ?_⟩
      · rw [h0, noHTPair_cons]
        simp [isHT, ihcs.2.1]
      · rw [h1, noHTPair_cons]
        simp [isHT, ihcs.2.2]
      · rw [h2]; exact ihcs.2.2
    · have hstep : ∀ s, capNL s (c :: cs) = c :: capNL 0 cs := by
        intro s; simp [capNL, hc]
      have hpair : (!(isHT c && headHT (capNL 0 cs))) = true := by
        rw [headHT_capNL0]
        exact h.1
      refine ⟨?_, ?_, ?_⟩ <;>
        · rw [hstep, noHTPair_cons, hpair]
          simpa using ihcs.1

theorem startNN_one (c : Char) : startNN [c] = false := by
  unfold startNN
  split <;> simp_all

theorem startN_capNL2 : ∀ l : List Char, startN (capNL 2 l) = false := by
  intro l
  induction l with
  | nil => rfl
  | cons c cs ih =>
    by_cases hc : c = '\n'
    · subst hc
      simpa [capNL] using ih
    · simp [capNL, hc, startN_eq]

theorem startNN_false_of_startN {X : List Char} (h : startN X = false) :
    startNN X = false := by
  cases X with
  | nil => rfl
  | cons d ds =>
    rw [startN_eq] at h
    cases ds with
    | nil => exact startNN_one d
    | cons e es =>
      rw [startNN_eq]
      simp [h]

theorem startNN_capNL1 : ∀ l : List Char, startNN (capNL 1 l) = false := by
  intro l
  cases l with
  | nil => rfl
  | cons c cs =>
    by_cases hc : c = '\n'
    · subst hc
      have h1 : capNL 1 ('\n' :: cs) = '\n' :: capNL 2 cs := by simp [capNL]
      rw [h1]
      cases hx : capNL 2 cs with
      | nil => exact startNN_one '\n'
      | cons d ds =>
        rw [startNN_eq]
        have := startN_capNL2 cs
        rw [hx, startN_eq] at this
        simp [this]
    · have hstep : capNL 1 (c :: cs) = c :: capNL 0 cs := by simp [capNL, hc]
      rw [hstep]
      cases hx : capNL 0 cs with
      | nil => exact startNN_one c
      | cons d ds =>
        rw [startNN_eq]
        simp [hc]

theorem noTripleNL_capNL : ∀ l : List Char,
    noTripleNL (capNL 0 l) = true ∧ noTripleNL (capNL 1 l) = true ∧
      noTripleNL (capNL 2 l) = true := by
  intro l
  induction l with
  | nil => exact ⟨rfl, rfl, rfl⟩
  | cons c cs ih =>
    by_cases hc : c = '\n'
    · subst hc
      have h0 : capNL 0 ('\n' :: cs) = '\n' :: capNL 1 cs := by simp [capNL]
      have h1 : capNL 1 ('\n' :: cs) = '\n' :: capNL 2 cs := by simp [capNL]
      have h2 : capNL 2 ('\n' :: cs) = capNL 2 cs := by simp [capNL]
      refine ⟨?_, ?_, ?_⟩
      · rw [h0, noTripleNL_cons, startNN_capNL1 cs]
        simpa using ih.2.1
      · rw [h1, noTripleNL_cons,
          startNN_false_of_startN (startN_capNL2 cs)]
        simpa using ih.2.2
      · rw [h2]; exact ih.2.2
    · have hstep : ∀ s, capNL s (c :: cs) = c :: capNL 0 cs := by
        intro s; simp [capNL, hc]
      refine ⟨?_, ?_, ?_⟩ <;>
        · rw [hstep, noTripleNL_cons]
          simp [hc, ih.1]

/-! ### Helper lemmas for C7: the invariants survive the final strip -/

theorem dropTrail_append (p : Char → Bool) : ∀ l : List Char,
    ∃ t, dropTrail p l ++ t = l := by
  intro l
  induction l with
  | nil => exact ⟨[], rfl⟩
  | cons c cs ih =>
    have hstep : dropTrail p (c :: cs) =
        match dropTrail p cs with
        | [] => if p c then [] else [c]
        | e :: es => c :: e :: es := rfl
    rw [hstep]
    cases hx : dropTrail p cs with
    | nil =>
      by_cases hc : p c
      · exact ⟨c :: cs, by simp [hc]⟩
      · exact ⟨cs, by simp [hc]⟩
    | cons d ds =>
      obtain ⟨t, ht⟩ := ih
      rw [hx] at ht
      exact ⟨t, by simpa using congrArg (c :: ·) ht⟩

theorem headHT_append_left {A B : List Char} (h : headHT A = true) :
    headHT (A ++ B) = true := by
  cases A with
  | nil => exact absurd h (by simp [headHT])
  | cons a A2 => simpa [headHT] using h

theorem noHTPair_append_left : ∀ (A B : List Char),
    noHTPair (A ++ B) = true → noHTPair A = true := by
  intro A
  induction A with
  | nil => intro B _; rfl
  | cons a A2 ih =>
    intro B h
    rw [List.cons_append, noHTPair_cons, Bool.and_eq_true] at h
    rw [noHTPair_cons, Bool.and_eq_true]
    refine ⟨?_, ih B h.2⟩
    cases hh : headHT A2 with
    | false => simp [hh]
    | true =>
      rw [headHT_append_left hh] at h
      exact h.1

theorem noHTPair_append_right : ∀ (A B : List Char),
    noHTPair (A ++ B) = true → noHTPair B = true := by
  intro A
  induction A with
  | nil => intro B h; exact h
  | cons a A2 ih =>
    intro B h
    rw [List.cons_append] at h
    exact ih B (noHTPair_tail a _ h)

theorem startNN_append_left {A B : List Char} (h : startNN A = true) :
    startNN (A ++ B) = true := by
  match A with
  | [] => exact absurd h (by simp [startNN])
  | [c] => exact absurd h (by simp [startNN_one])
  | b :: c :: r =>
    rw [startNN_eq] at h
    rw [List.cons_append, List.cons_append, startNN_eq]
    exact h

theorem noTripleNL_append_left : ∀ (A B : List Char),
    noTripleNL (A ++ B) = true → noTripleNL A = true := by
  intro A
  induction A with
  | nil => intro B _; rfl
  | cons a A2 ih =>
    intro B h
    rw [List.cons_append, noTripleNL_cons, Bool.and_eq_true] at h
    rw [noTripleNL_cons, Bool.and_eq_true]
    refine ⟨?_, ih B h.2⟩
    cases hh : startNN A2 with
    | false => simp [hh]
    | true =>
      rw [startNN_append_left hh] at h
      exact h.1

theorem noTripleNL_append_right : ∀ (A B : List Char),
    noTripleNL (A ++ B) = true → noTripleNL B = true := by
  intro A
  induction A with
  | nil => intro B h; exact h
  | cons a A2 ih =>
    intro B h
    rw [List.cons_append] at h
    exact ih B (noTripleNL_tail a _ h)

theorem noHTPair_pyStrip (l : List Char) (h : noHTPair l = true) :
    noHTPair (pyStrip l) = true := by
  unfold pyStrip
  have h1 : noHTPair (l.dropWhile pySpaceB) = true := by
    have := List.takeWhile_append_dropWhile (p := pySpaceB) (l := l)
    rw [← this] at h
    exact noHTPair_append_right _ _ h
  obtain ⟨t, ht⟩ := dropTrail_append pySpaceB (l.dropWhile pySpaceB)
  rw [← ht] at h1
  exact noHTPair_append_left _ _ h1

theorem noTripleNL_pyStrip (l : List Char) (h : noTripleNL l = true) :
    noTripleNL (pyStrip l) = true := by
  unfold pyStrip
  have h1 : noTripleNL (l.dropWhile pySpaceB) = true := by
    have := List.takeWhile_append_dropWhile (p := pySpaceB) (l := l)
    rw [← this] at h
    exact noTripleNL_append_right _ _ h
  obtain ⟨t, ht⟩ := dropTrail_append pySpaceB (l.dropWhile pySpaceB)
  rw [← ht] at h1
  exact noTripleNL_append_left _ _ h1

theorem headNot_pyStrip (l : List Char) :
    headNot pySpaceB (pyStrip l) = true := by
  unfold pyStrip
  cases hx : dropTrail pySpaceB (l.dropWhile pySpaceB) with
  | nil => rfl
  | cons c rest =>
    have hd := headNot_dropWhile pySpaceB l
    obtain ⟨t, ht⟩ := dropTrail_append pySpaceB (l.dropWhile pySpaceB)
    rw [hx] at ht
    rw [← ht] at hd
    simpa [headNot] using hd

theorem lastNot_pyStrip (l : List Char) :
    lastNot pySpaceB (pyStrip l) = true :=
  lastNot_dropTrail pySpaceB (l.dropWhile pySpaceB)

/-! ### Claim C7 -/

/-- C7: the Normalizer is idempotent — re-applying `normalize_text` to its
own output returns that output unchanged, for every input string. -/
theorem normalize_text_idempotent :
    ∀ s : String, normalize_text (normalize_text s) = normalize_text s := by
  intro s
  have hCRf : ∀ c, (!(mapCRf c = '\r')) = true := by
    intro c
    unfold mapCRf
    by_cases h : c = '\r' <;> simp [h]
  have hNBf : ∀ c, (!(mapNBSPf c = '\xa0')) = true := by
    intro c
    unfold mapNBSPf
    by_cases h : c = '\xa0' <;> simp [h]
  have hCRkeep : ∀ c, (!(c = '\r')) = true → (!(mapNBSPf c = '\r')) = true := by
    intro c hc
    unfold mapNBSPf
    by_cases h : c = '\xa0' <;> simp [h]
    simpa using hc
  have hCRid : ∀ c, (!(c = '\r')) = true → mapCRf c = c := by
    intro c hc
    unfold mapCRf
    simp at hc
    simp [hc]
  have hNBid : ∀ c, (!(c = '\xa0')) = true → mapNBSPf c = c := by
    intro c hc
    unfold mapNBSPf
    simp at hc
    simp [hc]
  set z3 := ((replaceCRLF s.data).map mapCRf).map mapNBSPf with hz3
  set z4 := collapseHT false z3 with hz4
  set z5 := capNL 0 z4 with hz5
  set y := pyStrip z5 with hy
  have hCR : noCR y = true := by
    apply all_of_sublist (pyStrip_sublist z5)
    apply all_capNL _ (by decide)
    apply all_collapseHT _ (by decide)
    exact all_map_keep mapNBSPf _ hCRkeep _
      (all_map_establish mapCRf _ hCRf (replaceCRLF s.data))
  have hNB : noNBSP y = true := by
    apply all_of_sublist (pyStrip_sublist z5)
    apply all_capNL _ (by decide)
    apply all_collapseHT _ (by decide)
    exact all_map_establish mapNBSPf _ hNBf _
  have hTab : noTab y = true := by
    apply all_of_sublist (pyStrip_sublist z5)
    apply all_capNL _ (by decide)
    exact noTab_collapseHT z3 false
  have hPair : noHTPair y = true :=
    noHTPair_pyStrip z5 ((noHTPair_capNL z4 (collapseHT_props z3).1).1)
  have hTriple : noTripleNL y = true :=
    noTripleNL_pyStrip z5 (noTripleNL_capNL z4).1
  have hHead : headNot pySpaceB y = true := headNot_pyStrip z5
  have hLast : lastNot pySpaceB y = true := lastNot_pyStrip z5
  have houter : normalize_text s = (⟨y⟩ : String) := rfl
  rw [houter]
  show (⟨pyStrip (capNL 0 (collapseHT false
    (((replaceCRLF y).map mapCRf).map mapNBSPf)))⟩ : String) = (⟨y⟩ : String)
  rw [replaceCRLF_eq_self y hCR,
    map_eq_self mapCRf _ hCRid y hCR,
    map_eq_self mapNBSPf _ hNBid y hNB,
    (collapseHT_eq_self y hTab hPair).1,
    (capNL_eq_self y hTriple).1,
    pyStrip_eq_self y hHead hLast]

end ICAIL
